import Mathlib

/-!
# cpp-sdk: the web client facade, the stats counters, the log reactors and the graph data models

A shallow embedding of `src/utils/IWebClient.h`, `src/utils/Log.cpp`,
`src/services/Graph/DataModels.h` and `src/utils/Library.cpp`.  Definitions come first,
theorems follow.

Conventions of the embedding:
* a `boost::shared_ptr<IWebClient>` is an `Option Handle`; the empty pointer is `none`
  and `operator->` on it is the fault `Fault.nullDeref`;
* the pure virtual methods of `IWebClient` and the static `Create` (whose body is not
  part of the header) are the fields of `IWebClient.Impl`, a parameter of the model;
* every call made through a client pointer is appended to a trace, so that the order
  of the calls can be stated;
* a log reactor pointer is a number, 0 being null; a second `delete` of a reactor and a
  call through the null pointer or a deleted reactor are the faults of `Log.MemFault`.
-/

namespace IWebClient

/-! ## `IWebClient::RequestData` -/

/-- The type `IWebClient::Headers`, a `std::map` from names to values. -/
abbrev Headers := List (String × String)

/-- The type `IWebClient::Cookies`, a `std::multimap` from names to values. -/
abbrev Cookies := List (String × String)

/-- The struct `IWebClient::RequestData`, field by field. -/
structure RequestData where
  m_Version : String
  m_StatusCode : Nat
  m_StatusMessage : String
  m_SetCookies : Cookies
  m_Headers : Headers
  m_Content : String
  m_bDone : Bool
  deriving DecidableEq, Repr

namespace RequestData

/-- The constructor `RequestData()`: `m_StatusCode(0), m_bDone(false)`, every other
member default-constructed (empty strings, empty containers). -/
def default : RequestData :=
  { m_Version := ""
    m_StatusCode := 0
    m_StatusMessage := ""
    m_SetCookies := []
    m_Headers := []
    m_Content := ""
    m_bDone := false }

/-- The constructor `RequestData(const RequestData & a_Copy)`: the initialiser list names
`m_Version`, `m_StatusCode`, `m_StatusMessage`, `m_SetCookies`, `m_Headers` and
`m_bDone(false)`; `m_Content` is not in the list, hence default-constructed. -/
def copy (a_Copy : RequestData) : RequestData :=
  { m_Version := a_Copy.m_Version
    m_StatusCode := a_Copy.m_StatusCode
    m_StatusMessage := a_Copy.m_StatusMessage
    m_SetCookies := a_Copy.m_SetCookies
    m_Headers := a_Copy.m_Headers
    m_Content := ""
    m_bDone := false }

end RequestData

/-! ## The `Request` facade -/

/-- Modelled from the spec: the class `URL` (its header is not among the sources), "a URL
parser exposing scheme/host/port/path". -/
structure URL where
  scheme : String
  host : String
  port : Nat
  path : String
  deriving DecidableEq, Repr

/-- The identity of one client object. -/
abbrev Handle := Nat

/-- The type `IWebClient::SP`; `none` is the empty shared pointer. -/
abbrev SP := Option Handle

/-- A `Delegate<T>`, identified by a number. -/
abbrev Delegate := Nat

/-- The static `Create` and the pure virtual methods `Request` calls, over a world `ω`
holding every client object.  `SetHeaders` carries its `a_bMerge` argument. -/
structure Impl (ω : Type) where
  Create : URL → ω → SP × ω
  SetHeaders : Handle → Headers → Bool → ω → ω
  SetRequestType : Handle → String → ω → ω
  SetBody : Handle → String → ω → ω
  SetDataReceiver : Handle → Delegate → ω → ω
  SetStateReceiver : Handle → Delegate → ω → ω
  Send : Handle → ω → Bool × ω

/-- One observable call: `Create`, or a method invoked on the client `p`.  `send` records
the boolean `Send` returned. -/
inductive Event where
  | create (a_URL : URL) (result : SP)
  | setHeaders (p : Handle) (a_Headers : Headers) (a_bMerge : Bool)
  | setRequestType (p : Handle) (a_ReqType : String)
  | setBody (p : Handle) (a_Body : String)
  | setDataReceiver (p : Handle) (a_DataReceiver : Delegate)
  | setStateReceiver (p : Handle) (a_StateReceiver : Delegate)
  | send (p : Handle) (accepted : Bool)
  deriving DecidableEq, Repr

/-- What goes wrong when a call is made through an empty pointer. -/
inductive Fault where
  | nullDeref
  deriving DecidableEq, Repr

/-- The world together with the calls made so far, oldest first. -/
structure Run (ω : Type) where
  world : ω
  trace : List Event

/-- The operator `->` of `boost::shared_ptr`: defined on a non-empty pointer only. -/
def deref : SP → Except Fault Handle
  | some p => Except.ok p
  | none => Except.error Fault.nullDeref

/-- The call `IWebClient::Create( a_URL )`. -/
def callCreate {ω : Type} (I : Impl ω) (a_URL : URL) (s : Run ω) : SP × Run ω :=
  let r := I.Create a_URL s.world
  (r.1, { world := r.2, trace := s.trace ++ [Event.create a_URL r.1] })

/-- The call `sp->SetHeaders( a_Headers, a_bMerge )`. -/
def callSetHeaders {ω : Type} (I : Impl ω) (sp : SP) (a_Headers : Headers) (a_bMerge : Bool)
    (s : Run ω) : Except Fault (Run ω) := do
  let p ← deref sp
  pure { world := I.SetHeaders p a_Headers a_bMerge s.world
         trace := s.trace ++ [Event.setHeaders p a_Headers a_bMerge] }

/-- The call `sp->SetRequestType( a_ReqType )`. -/
def callSetRequestType {ω : Type} (I : Impl ω) (sp : SP) (a_ReqType : String)
    (s : Run ω) : Except Fault (Run ω) := do
  let p ← deref sp
  pure { world := I.SetRequestType p a_ReqType s.world
         trace := s.trace ++ [Event.setRequestType p a_ReqType] }

/-- The call `sp->SetBody( a_Body )`. -/
def callSetBody {ω : Type} (I : Impl ω) (sp : SP) (a_Body : String)
    (s : Run ω) : Except Fault (Run ω) := do
  let p ← deref sp
  pure { world := I.SetBody p a_Body s.world
         trace := s.trace ++ [Event.setBody p a_Body] }

/-- The call `sp->SetDataReceiver( a_DataReceiver )`. -/
def callSetDataReceiver {ω : Type} (I : Impl ω) (sp : SP) (a_DataReceiver : Delegate)
    (s : Run ω) : Except Fault (Run ω) := do
  let p ← deref sp
  pure { world := I.SetDataReceiver p a_DataReceiver s.world
         trace := s.trace ++ [Event.setDataReceiver p a_DataReceiver] }

/-- The call `sp->SetStateReceiver( a_StateReceiver )`. -/
def callSetStateReceiver {ω : Type} (I : Impl ω) (sp : SP) (a_StateReceiver : Delegate)
    (s : Run ω) : Except Fault (Run ω) := do
  let p ← deref sp
  pure { world := I.SetStateReceiver p a_StateReceiver s.world
         trace := s.trace ++ [Event.setStateReceiver p a_StateReceiver] }

/-- The call `sp->Send()`; the boolean it returns is handed back with the new run. -/
def callSend {ω : Type} (I : Impl ω) (sp : SP) (s : Run ω) : Except Fault (Bool × Run ω) := do
  let p ← deref sp
  let r := I.Send p s.world
  pure (r.1, { world := r.2, trace := s.trace ++ [Event.send p r.1] })

/-- The static `IWebClient::Request`, statement by statement.  `SetHeaders` is called with
one argument, so `a_bMerge` takes its declared default `false`; the value of `Send()` is
an expression statement and is dropped; `spClient` is returned. -/
def Request {ω : Type} (I : Impl ω) (a_URL : URL) (a_Headers : Headers)
    (a_RequestType : String) (a_Body : String) (a_DataReceiver : Delegate)
    (a_StateReceiver : Delegate) (s : Run ω) : Except Fault (SP × Run ω) := do
  let (spClient, s) := callCreate I a_URL s
  let s ← callSetHeaders I spClient a_Headers false s
  let s ← callSetRequestType I spClient a_RequestType s
  let s ← callSetBody I spClient a_Body s
  let s ← callSetDataReceiver I spClient a_DataReceiver s
  let s ← callSetStateReceiver I spClient a_StateReceiver s
  let (_, s) ← callSend I spClient s
  pure (spClient, s)

/-- The handle `Request` returns, when it returns. -/
def returned {ω : Type} (r : Except Fault (SP × Run ω)) : Option SP :=
  match r with
  | Except.ok v => some v.1
  | Except.error _ => none

/-- The trace `Request` leaves, when it returns. -/
def traced {ω : Type} (r : Except Fault (SP × Run ω)) : List Event :=
  match r with
  | Except.ok v => v.2.trace
  | Except.error _ => []

/-! ### A concrete client, used to evaluate the facade -/

/-- The configuration of the single client of `sampleImpl`. -/
structure SampleWorld where
  created : Nat
  headers : Headers
  reqType : String
  body : String
  dataReceiver : Delegate
  stateReceiver : Delegate
  requestsSent : Nat
  deriving DecidableEq, Repr

/-- A fresh world: nothing created, nothing configured. -/
def SampleWorld.init : SampleWorld :=
  { created := 0, headers := [], reqType := "", body := "", dataReceiver := 0,
    stateReceiver := 0, requestsSent := 0 }

/-- Modelled from the spec: a concrete transport behind the interface, whose code is not
in the header.  `Create` looks the scheme up among the registered ones (`http`, `https`)
and creates no connection for another scheme (section 4.3); `Send` validates that a
method is set and answers accepted or rejected (sections 4.2 and 7), counting an accepted
request. -/
def sampleImpl : Impl SampleWorld :=
  { Create := fun a_URL w =>
      if a_URL.scheme = "http" ∨ a_URL.scheme = "https" then
        (some w.created, { w with created := w.created + 1 })
      else (none, w)
    SetHeaders := fun _ h _ w => { w with headers := h }
    SetRequestType := fun _ t w => { w with reqType := t }
    SetBody := fun _ b w => { w with body := b }
    SetDataReceiver := fun _ d w => { w with dataReceiver := d }
    SetStateReceiver := fun _ d w => { w with stateReceiver := d }
    Send := fun _ w =>
      if w.reqType = "" then (false, w)
      else (true, { w with requestsSent := w.requestsSent + 1 }) }

/-- The run every evaluation below starts from. -/
def sampleRun : Run SampleWorld := { world := SampleWorld.init, trace := [] }

/-- The URL `https://a.example:443/x`, of a registered scheme. -/
def sampleURL : URL := { scheme := "https", host := "a.example", port := 443, path := "/x" }

/-- The URL `ftp://a.example:21/x`, of a scheme without a registered constructor. -/
def unknownSchemeURL : URL := { scheme := "ftp", host := "a.example", port := 21, path := "/x" }

end IWebClient

namespace IWebClient

/-! ## The stats counters -/

/-- The number of values of an `unsigned int`: `sm_RequestsSent`, `sm_BytesSent` and
`sm_BytesRecv` are `boost::atomic<unsigned int>`, so their arithmetic is modulo this. -/
def UINT_RANGE : Nat := 2 ^ 32

/-- The three static counters of `IWebClient`. -/
structure Stats where
  sm_RequestsSent : Nat
  sm_BytesSent : Nat
  sm_BytesRecv : Nat
  deriving DecidableEq, Repr

/-- An operation that touches the counters: an accepted `Send` of `bytes` bytes of headers
and body, or a data delivery carrying `bytes` new bytes. -/
inductive StatsOp where
  | send (bytes : Nat)
  | recv (bytes : Nat)
  deriving DecidableEq, Repr

namespace Stats

/-- The counters when the process starts. -/
def zero : Stats := { sm_RequestsSent := 0, sm_BytesSent := 0, sm_BytesRecv := 0 }

/-- Modelled from the spec: the places that increment the counters, which are in the
concrete client and not in the header.  "Each accepted `Send` increments the
requests-sent and bytes-sent stats by the size of headers+body" (one request, `bytes`
bytes); each data delivery adds "the newly delivered content length" to bytes-received.
Every addition is the `+=` of an `unsigned int`, hence reduced modulo `UINT_RANGE`. -/
def apply (s : Stats) : StatsOp → Stats
  | StatsOp.send bytes =>
    { s with sm_RequestsSent := (s.sm_RequestsSent + 1) % UINT_RANGE
             sm_BytesSent := (s.sm_BytesSent + bytes) % UINT_RANGE }
  | StatsOp.recv bytes =>
    { s with sm_BytesRecv := (s.sm_BytesRecv + bytes) % UINT_RANGE }

/-- The counters after a sequence of operations, starting from zero. -/
def run (ops : List StatsOp) : Stats := ops.foldl apply zero

end Stats

/-- The requests one operation adds. -/
def StatsOp.requests : StatsOp → Nat
  | StatsOp.send _ => 1
  | StatsOp.recv _ => 0

/-- The bytes one operation sends. -/
def StatsOp.sent : StatsOp → Nat
  | StatsOp.send bytes => bytes
  | StatsOp.recv _ => 0

/-- The bytes one operation receives. -/
def StatsOp.received : StatsOp → Nat
  | StatsOp.send _ => 0
  | StatsOp.recv bytes => bytes

/-- The exact number of requests a sequence adds. -/
def requestsOf (ops : List StatsOp) : Nat := (ops.map StatsOp.requests).sum

/-- The exact number of bytes a sequence sends. -/
def bytesSentOf (ops : List StatsOp) : Nat := (ops.map StatsOp.sent).sum

/-- The exact number of bytes a sequence receives. -/
def bytesRecvOf (ops : List StatsOp) : Nat := (ops.map StatsOp.received).sum

end IWebClient

namespace Log

/-! ## Log records and the two reactors (`src/utils/Log.cpp`) -/

/-- Modelled from the spec: the enum `LogLevel` of `Log.h`, a header that is not among the
sources.  Its seven levels, in the order of the `LEVELS` table of `Log::LevelText`:
DEBUG_LOW, DEBUG_MED, DEBUG_HIGH, STATUS, WARNING, ERROR, CRITICAL. -/
inductive LogLevel where
  | LL_DEBUG_LOW
  | LL_DEBUG_MED
  | LL_DEBUG_HIGH
  | LL_STATUS
  | LL_WARNING
  | LL_ERROR
  | LL_CRITICAL
  deriving DecidableEq, Repr

/-- The integer value of an enumerator, counted from 0 in declaration order. -/
def LogLevel.toNat : LogLevel → Nat
  | LL_DEBUG_LOW => 0
  | LL_DEBUG_MED => 1
  | LL_DEBUG_HIGH => 2
  | LL_STATUS => 3
  | LL_WARNING => 4
  | LL_ERROR => 5
  | LL_CRITICAL => 6

/-- Modelled from the spec: the struct `LogRecord` of `Log.h`, with the members `Log.cpp`
reads and writes.  `m_TimeEpoch` is kept as a whole number of seconds. -/
structure LogRecord where
  m_Level : LogLevel
  m_SubSystem : String
  m_Time : String
  m_TimeEpoch : Nat
  m_Message : String
  deriving DecidableEq, Repr

/-- The table `LEVELS` of `Log::LevelText`. -/
def LEVELS : List String := ["DEBL", "DEBM", "DEBH", "STAT", "WARN", "ERRO", "CRIT"]

/-- The function `Log::LevelText`: `return LEVELS[ a_Level ]`.  The read is in bounds for
each enumerator, which the index proof checks. -/
def LevelText (a_Level : LogLevel) : String :=
  LEVELS.get ⟨a_Level.toNat, by cases a_Level <;> decide⟩

/-- What `%s` prints of `s.c_str()`: the characters before the first NUL. -/
def c_str (s : String) : String :=
  String.mk (s.data.takeWhile (fun c => c ≠ Char.ofNat 0))

/-- The text of the format `"[%s][%s][%s] %s\n"` applied to `m_Time.c_str()`,
`Log::LevelText( m_Level )`, `m_SubSystem.c_str()` and `m_Message.c_str()`: the argument
list of both the `printf` of `ConsoleReactor::Process` and the `StringUtil::Format` of
`FileReactor::Process`. -/
def formatRecord (a_Record : LogRecord) : String :=
  "[" ++ c_str a_Record.m_Time ++ "][" ++ LevelText a_Record.m_Level ++ "][" ++
    c_str a_Record.m_SubSystem ++ "] " ++ c_str a_Record.m_Message ++ "\n"

/-- The class `ConsoleReactor`: its minimum level. -/
structure ConsoleReactor where
  m_MinLevel : LogLevel
  deriving DecidableEq, Repr

/-- The method `ConsoleReactor::Process`, on the standard output seen as the list of
texts printed so far; the branch under `_WIN32`, which only colours the console, is left
out. -/
def ConsoleReactor.Process (self : ConsoleReactor) (a_Record : LogRecord)
    (stdout : List String) : List String :=
  if a_Record.m_Level.toNat ≥ self.m_MinLevel.toNat then
    stdout ++ [formatRecord a_Record]
  else stdout

/-- The class `FileReactor`: the log file name, the minimum level and the list `m_Output`
of lines waiting for the write thread. -/
structure FileReactor where
  m_LogFile : String
  m_MinLevel : LogLevel
  m_Output : List String
  deriving DecidableEq, Repr

/-- The method `FileReactor::Process`: under the output lock, `m_Output.push_back( log )`. -/
def FileReactor.Process (self : FileReactor) (a_Record : LogRecord) : FileReactor :=
  if a_Record.m_Level.toNat ≥ self.m_MinLevel.toNat then
    let log := formatRecord a_Record
    { self with m_Output := self.m_Output ++ [log] }
  else self

/-- A record used to evaluate the reactors. -/
def sampleRecord : LogRecord :=
  { m_Level := LogLevel.LL_WARNING, m_SubSystem := "Library", m_Time := "11/01/26 10:00:00.250",
    m_TimeEpoch := 1793527200, m_Message := "Failed to load dynamic library foo." }

end Log

namespace Log

/-! ## The reactor list of `Log` -/

/-- A pointer `ILogReactor *`: 0 is the null pointer, any other number identifies the
reactor object it points to. -/
abbrev ReactorPtr := Nat

/-- The null pointer. -/
def NULL : ReactorPtr := 0

/-- What goes wrong when a pointer that does not point to a live reactor is used: a
second `delete` of a reactor, a call of `Process` through a deleted reactor, or a call
of `Process` through the null pointer.  Each is undefined behaviour. -/
inductive MemFault where
  | doubleDelete (pReactor : ReactorPtr)
  | useAfterDelete (pReactor : ReactorPtr)
  | nullDeref
  deriving DecidableEq, Repr

/-- The static list of `Log::GetReactorList()`, in list order, together with the
reactors passed to `delete` so far, oldest first. -/
structure ReactorList where
  reactors : List ReactorPtr
  deleted : List ReactorPtr
  deriving DecidableEq, Repr

/-- The reactor list when the process starts. -/
def ReactorList.empty : ReactorList := { reactors := [], deleted := [] }

/-- The member `std::list::remove( value )`: walks the list and erases every element
equal to `value`. -/
def listRemove (value : ReactorPtr) : List ReactorPtr → List ReactorPtr
  | [] => []
  | x :: rest => if x = value then listRemove value rest else x :: listRemove value rest

/-- The statement `delete pReactor`: nothing on the null pointer, defined on a reactor
that has not been deleted yet, a fault on one that has. -/
def deleteReactor (pReactor : ReactorPtr) (deleted : List ReactorPtr) :
    Except MemFault (List ReactorPtr) :=
  if pReactor = NULL then Except.ok deleted
  else if pReactor ∈ deleted then Except.error (MemFault.doubleDelete pReactor)
  else Except.ok (deleted ++ [pReactor])

/-- The function `Log::RegisterReactor`: `GetReactorList().push_back(a_pReactor)`. -/
def RegisterReactor (a_pReactor : ReactorPtr) (s : ReactorList) : ReactorList :=
  { s with reactors := s.reactors ++ [a_pReactor] }

/-- The function `Log::RemoveReactor`: `GetReactorList().remove(a_pReactor)`, then
`delete a_pReactor` when `a_bDelete`. -/
def RemoveReactor (a_pReactor : ReactorPtr) (a_bDelete : Bool) (s : ReactorList) :
    Except MemFault ReactorList := do
  let s := { s with reactors := listRemove a_pReactor s.reactors }
  if a_bDelete then
    let deleted ← deleteReactor a_pReactor s.deleted
    pure { s with deleted := deleted }
  else pure s

/-- The loop of `Log::RemoveAllReactors` that deletes each element of the list in turn; a
reactor that is in the list twice is deleted twice, which is the fault. -/
def deleteEach : List ReactorPtr → List ReactorPtr → Except MemFault (List ReactorPtr)
  | [], deleted => Except.ok deleted
  | pReactor :: rest, deleted => do
    let deleted ← deleteReactor pReactor deleted
    deleteEach rest deleted

/-- The function `Log::RemoveAllReactors`: the deleting loop when `a_bDelete`, then
`reactors.clear()`. -/
def RemoveAllReactors (a_bDelete : Bool) (s : ReactorList) : Except MemFault ReactorList := do
  let s ← (if a_bDelete then do
      let deleted ← deleteEach s.reactors s.deleted
      pure { s with deleted := deleted }
    else pure s)
  pure { s with reactors := [] }

/-- The loop of `Log::ProcessRecord` over a list of reactors: one call
`(*iReactor)->Process(rec)` per element, front to back; the result lists the calls.  A
call through the null pointer or through a deleted reactor is a fault. -/
def dispatch (rec : LogRecord) (deleted : List ReactorPtr) :
    List ReactorPtr → Except MemFault (List (ReactorPtr × LogRecord))
  | [] => Except.ok []
  | pReactor :: rest =>
    if pReactor = NULL then Except.error MemFault.nullDeref
    else if pReactor ∈ deleted then Except.error (MemFault.useAfterDelete pReactor)
    else do
      let calls ← dispatch rec deleted rest
      pure ((pReactor, rec) :: calls)

/-- The function `Log::ProcessRecord`: the calls of `Process` it makes, in order. -/
def ProcessRecord (s : ReactorList) (rec : LogRecord) :
    Except MemFault (List (ReactorPtr × LogRecord)) :=
  dispatch rec s.deleted s.reactors

/-- One call that changes the reactor list. -/
inductive LogOp where
  | register (a_pReactor : ReactorPtr)
  | remove (a_pReactor : ReactorPtr) (a_bDelete : Bool)
  | removeAll (a_bDelete : Bool)
  deriving DecidableEq, Repr

/-- The effect of one call. -/
def LogOp.apply (s : ReactorList) : LogOp → Except MemFault ReactorList
  | LogOp.register p => Except.ok (RegisterReactor p s)
  | LogOp.remove p d => RemoveReactor p d s
  | LogOp.removeAll d => RemoveAllReactors d s

/-- The effect of a sequence of calls on a given list; it stops at the first fault. -/
def runFrom (s : ReactorList) : List LogOp → Except MemFault ReactorList
  | [] => Except.ok s
  | op :: rest => do
    let s ← LogOp.apply s op
    runFrom s rest

/-- The effect of a sequence of calls on the empty list. -/
def run (ops : List LogOp) : Except MemFault ReactorList := runFrom ReactorList.empty ops

/-- Whether a call takes the registrations of `r` away: `RemoveReactor(r)` and
`RemoveAllReactors` do. -/
def LogOp.cancels (r : ReactorPtr) : LogOp → Bool
  | LogOp.register _ => false
  | LogOp.remove p _ => p = r
  | LogOp.removeAll _ => true

/-- The registrations standing after a sequence of calls, as the claim words them: every
`RegisterReactor(p)` of the sequence that no later `RemoveReactor(p)` or
`RemoveAllReactors` follows, in the order of the registering calls, one entry per call. -/
def standing : List LogOp → List ReactorPtr
  | [] => []
  | LogOp.register p :: rest =>
    if rest.any (LogOp.cancels p) then standing rest else p :: standing rest
  | LogOp.remove _ _ :: rest => standing rest
  | LogOp.removeAll _ :: rest => standing rest

/-- A history that registers reactor 1 twice, between and after it reactors 2 and 3. -/
def sampleHistory : List LogOp :=
  [LogOp.register 1, LogOp.register 2, LogOp.register 1, LogOp.register 3]

/-! ## The write thread of `FileReactor` -/

/-- A `FileReactor` together with its log file, seen as the list of texts `fwrite` has
appended to it since the reactor was built, oldest first. -/
structure FileState where
  reactor : FileReactor
  file : List String
  deriving DecidableEq, Repr

/-- The member initialisers of `FileReactor::FileReactor`: the file name, the minimum
level, and an empty `m_Output`; nothing is written yet. -/
def FileState.start (a_pLogFile : String) (a_MinLevel : LogLevel) : FileState :=
  { reactor := { m_LogFile := a_pLogFile, m_MinLevel := a_MinLevel, m_Output := [] }
    file := [] }

/-- The loop of `FileReactor::WriteThread` over the local list: one `fwrite` of the whole
line per element, front to back, each at the end of the file (mode `a+`). -/
def fwriteEach : List String → List String → List String
  | [], file => file
  | log :: rest, file => fwriteEach rest (file ++ [log])

/-- One turn of the loop of `FileReactor::WriteThread` after its sleep.  When `m_Output`
is not empty it is spliced into the empty local list `output`, which leaves it empty, and
`output` is written when `fopen` succeeded (`fopenOk`) and dropped otherwise. -/
def WriteThread_step (fopenOk : Bool) (s : FileState) : FileState :=
  if s.reactor.m_Output ≠ [] then
    let output := [] ++ s.reactor.m_Output
    let reactor := { s.reactor with m_Output := [] }
    if fopenOk then { reactor := reactor, file := fwriteEach output s.file }
    else { reactor := reactor, file := s.file }
  else s

/-- One atomic step on a `FileReactor`: a call of `Process`, or a turn of the write
thread with the outcome of its `fopen`. -/
inductive FileStep where
  | process (a_Record : LogRecord)
  | drain (fopenOk : Bool)
  deriving DecidableEq, Repr

/-- The effect of one step. -/
def FileStep.apply (s : FileState) : FileStep → FileState
  | FileStep.process a_Record => { s with reactor := s.reactor.Process a_Record }
  | FileStep.drain fopenOk => WriteThread_step fopenOk s

/-- The state after a sequence of steps. -/
def FileState.run (s : FileState) (steps : List FileStep) : FileState :=
  steps.foldl FileStep.apply s

/-- The lines a sequence of steps has accepted, in acceptance order: the formatted text
of every processed record whose level reaches the minimum. -/
def acceptedLines (a_MinLevel : LogLevel) : List FileStep → List String
  | [] => []
  | FileStep.process a_Record :: rest =>
    if a_Record.m_Level.toNat ≥ a_MinLevel.toNat then
      formatRecord a_Record :: acceptedLines a_MinLevel rest
    else acceptedLines a_MinLevel rest
  | FileStep.drain _ :: rest => acceptedLines a_MinLevel rest

/-- A second record, of level DEBUG_LOW. -/
def sampleDebugRecord : LogRecord :=
  { m_Level := LogLevel.LL_DEBUG_LOW, m_SubSystem := "WebClient",
    m_Time := "11/01/26 10:00:01.000", m_TimeEpoch := 1793527201, m_Message := "connected" }

end Log

namespace Log

/-! ## The log rotation of `FileReactor::FileReactor` -/

/-- The file system: each name holds a content or does not exist. -/
abbrev FS := String → Option String

/-- The call `boost::filesystem::exists( p )`. -/
def FS.exists (fs : FS) (p : String) : Bool := (fs p).isSome

/-- The call `boost::filesystem::remove( p )`: afterwards `p` does not exist. -/
def FS.remove (fs : FS) (p : String) : FS := fun n => if n = p then none else fs n

/-- The call `boost::filesystem::rename( src, dst )`: it throws when `src` does not
exist, which is the error carrying the file system at that point; otherwise `dst` holds
the content of `src` and `src` is gone. -/
def FS.rename (fs : FS) (src dst : String) : Except FS FS :=
  match fs src with
  | none => Except.error fs
  | some content =>
    Except.ok (fun n => if n = dst then some content else if n = src then none else fs n)

/-- Modelled from the spec: the call `StringUtil::Format( "%s.%d", a_pLogFile, i )`, a
function that is not among the sources, taken as `sprintf`: the file name, a dot, and the
integer in decimal. -/
def logName (a_pLogFile : String) (i : Int) : String := a_pLogFile ++ "." ++ toString i

/-- The loop `for(int i = ...; i > 0; --i)` of the constructor, entered with `i` equal to
the counter: it moves `file.(i-1)`, when it exists, to `file.i`, and goes on with `i-1`. -/
def rotateLoop (a_pLogFile : String) : Nat → FS → Except FS FS
  | 0, fs => Except.ok fs
  | k + 1, fs => do
    let i : Int := ((k + 1 : Nat) : Int)
    let src := logName a_pLogFile (i - 1)
    let fs ← (if fs.exists src then fs.rename src (logName a_pLogFile i) else pure fs)
    rotateLoop a_pLogFile k fs

/-- The `try` block of `FileReactor::FileReactor`: remove `file.(history-1)`, run the
loop from `history-1` down to 1, then move the log file itself to `file.0`; an exception
leaves the block with the file system as it is (`catch` with an empty body). -/
def rotate (a_pLogFile : String) (a_LogHistory : Int) (fs : FS) : FS :=
  let block : Except FS FS := do
    let fs := fs.remove (logName a_pLogFile (a_LogHistory - 1))
    let fs ← rotateLoop a_pLogFile (a_LogHistory - 1).toNat fs
    if fs.exists a_pLogFile then fs.rename a_pLogFile (logName a_pLogFile 0) else pure fs
  match block with
  | Except.ok fs => fs
  | Except.error fs => fs

/-- The constructor `FileReactor::FileReactor( a_pLogFile, a_MinLevel, a_LogHistory )`:
the member initialisers, then the rotation of the log files; the write thread it starts
last takes its turns through `WriteThread_step`. -/
def FileReactor.construct (a_pLogFile : String) (a_MinLevel : LogLevel) (a_LogHistory : Int)
    (fs : FS) : FileReactor × FS :=
  ({ m_LogFile := a_pLogFile, m_MinLevel := a_MinLevel, m_Output := [] },
    rotate a_pLogFile a_LogHistory fs)

/-- The number a list of decimal digits stands for. -/
def decimalValue (cs : List Char) : Nat := cs.foldl (fun a c => a * 10 + (c.toNat - 48)) 0

/-- A file system with the log file and two rotated files. -/
def sampleFS : FS := fun n =>
  if n = "a.log" then some "today"
  else if n = "a.log.0" then some "yesterday"
  else if n = "a.log.2" then some "old"
  else none

end Log

namespace GraphDataModels

/-! ## The flat graph data models (`src/services/Graph/DataModels.h`) -/

/-- The class `Json::Value` of the jsoncpp library the data models are written against:
null, booleans, integers, strings, arrays and objects (numbers with a fraction are left
out).  The members of an object are kept in a list with one entry per key. -/
inductive Json where
  | null
  | bool (b : Bool)
  | int (i : Int)
  | string (s : String)
  | array (items : List Json)
  | object (members : List (String × Json))

/-- The members of an object after the member `key` is given the value `v`: the entry of
`key` is replaced when there is one, and added otherwise. -/
def setEntry (key : String) (v : Json) : List (String × Json) → List (String × Json)
  | [] => [(key, v)]
  | (k, w) :: rest => if k = key then (key, v) :: rest else (k, w) :: setEntry key v rest

/-- The value of the member `key` among the members of an object, `null` when there is
no such member. -/
def getEntry (key : String) : List (String × Json) → Json
  | [] => Json.null
  | (k, w) :: rest => if k = key then w else getEntry key rest

/-- The assignment `json[key] = v` through the non-const `operator[]`: a null value
becomes an object, an object gets or replaces the member, and any other value fails the
library's type assertion (`none`). -/
def Json.setMember (json : Json) (key : String) (v : Json) : Option Json :=
  match json with
  | Json.null => some (Json.object [(key, v)])
  | Json.object members => some (Json.object (setEntry key v members))
  | _ => none

/-- The read `json[key]` through the const `operator[]`: the member, or null when the
value is null or has no such member; any other value fails the library's type assertion
(`none`). -/
def Json.getMember (json : Json) (key : String) : Option Json :=
  match json with
  | Json.null => some Json.null
  | Json.object members => some (getEntry key members)
  | _ => none

/-- The conversion `asString()`: the text of a string, the empty text for null, the
printed form of a boolean or an integer; arrays and objects are not convertible (`none`). -/
def Json.asString : Json → Option String
  | Json.null => some ""
  | Json.bool b => some (if b then "true" else "false")
  | Json.int i => some (toString i)
  | Json.string s => some s
  | Json.array _ => none
  | Json.object _ => none

/-- The struct `EdgeLabel`. -/
structure EdgeLabel where
  m_Multiplicity : String
  m_Name : String
  deriving DecidableEq, Repr

/-- The method `EdgeLabel::Serialize`. -/
def EdgeLabel.Serialize (self : EdgeLabel) (json : Json) : Option Json := do
  let json ← json.setMember "multiplicity" (Json.string self.m_Multiplicity)
  let json ← json.setMember "name" (Json.string self.m_Name)
  pure json

/-- The method `EdgeLabel::Deserialize`; the object it is called on is overwritten member
by member, so the result does not depend on it. -/
def EdgeLabel.Deserialize (self : EdgeLabel) (json : Json) : Option EdgeLabel := do
  let self := { self with m_Multiplicity := ← (← json.getMember "multiplicity").asString }
  let self := { self with m_Name := ← (← json.getMember "name").asString }
  pure self

/-- The struct `VertexLabel`. -/
structure VertexLabel where
  m_Name : String
  deriving DecidableEq, Repr

/-- The method `VertexLabel::Serialize`. -/
def VertexLabel.Serialize (self : VertexLabel) (json : Json) : Option Json := do
  let json ← json.setMember "name" (Json.string self.m_Name)
  pure json

/-- The method `VertexLabel::Deserialize`. -/
def VertexLabel.Deserialize (self : VertexLabel) (json : Json) : Option VertexLabel := do
  let self := { self with m_Name := ← (← json.getMember "name").asString }
  pure self

/-- The struct `IndexOnly`. -/
structure IndexOnly where
  m_Name : String
  deriving DecidableEq, Repr

/-- The method `IndexOnly::Serialize`. -/
def IndexOnly.Serialize (self : IndexOnly) (json : Json) : Option Json := do
  let json ← json.setMember "name" (Json.string self.m_Name)
  pure json

/-- The method `IndexOnly::Deserialize`. -/
def IndexOnly.Deserialize (self : IndexOnly) (json : Json) : Option IndexOnly := do
  let self := { self with m_Name := ← (← json.getMember "name").asString }
  pure self

/-- The struct `PropertyKey`. -/
structure PropertyKey where
  m_Cardinality : String
  m_DataType : String
  m_Name : String
  deriving DecidableEq, Repr

/-- The method `PropertyKey::Serialize`. -/
def PropertyKey.Serialize (self : PropertyKey) (json : Json) : Option Json := do
  let json ← json.setMember "cardinality" (Json.string self.m_Cardinality)
  let json ← json.setMember "dataType" (Json.string self.m_DataType)
  let json ← json.setMember "name" (Json.string self.m_Name)
  pure json

/-- The method `PropertyKey::Deserialize`. -/
def PropertyKey.Deserialize (self : PropertyKey) (json : Json) : Option PropertyKey := do
  let self := { self with m_Cardinality := ← (← json.getMember "cardinality").asString }
  let self := { self with m_DataType := ← (← json.getMember "dataType").asString }
  let self := { self with m_Name := ← (← json.getMember "name").asString }
  pure self

end GraphDataModels

namespace Utils

/-! ## The dynamic library holder (`src/utils/Library.cpp`) -/

/-- The class `Library`: the stored name `m_Lib` and the handle `m_pLibrary`, a `void *`
that is `NULL` (`none`) or the address the loader returned. -/
structure Library where
  m_Lib : String
  m_pLibrary : Option Nat
  deriving DecidableEq, Repr

namespace Library

/-- The constructor `Library()`: `m_pLibrary( NULL )`, the name default-constructed. -/
def default : Library := { m_Lib := "", m_pLibrary := none }

/-- The method `Library::Load` in the branch that is neither `_WIN32` nor `__APPLE__`: the
name is stored and the handle is what `dlopen` answers for `lib<name>.so`; the loader is
a parameter and the log lines of a failed load are left out. -/
def Load (dlopen : String → Option Nat) (_self : Library) (a_Lib : String) : Library :=
  let m_Lib := a_Lib
  let libFile := "lib" ++ m_Lib ++ ".so"
  { m_Lib := m_Lib, m_pLibrary := dlopen libFile }

/-- The method `Library::Unload`, on the object and the list of handles passed to
`dlclose` (`FreeLibrary` under `_WIN32`) so far, oldest first: a handle that is not `NULL`
is closed and set to `NULL`; then `m_Lib.clear()`. -/
def Unload (self : Library) (closed : List Nat) : Library × List Nat :=
  let r : Library × List Nat :=
    match self.m_pLibrary with
    | some handle => ({ self with m_pLibrary := none }, closed ++ [handle])
    | none => (self, closed)
  ({ r.1 with m_Lib := "" }, r.2)

/-- The destructor `Library::~Library`: `Unload()`. -/
def destroy (self : Library) (closed : List Nat) : Library × List Nat :=
  Unload self closed

end Library

/-- A loader that knows one library, `libfoo.so`, at address 4096. -/
def sampleLoader : String → Option Nat := fun libFile =>
  if libFile = "libfoo.so" then some 4096 else none

end Utils

/-! # Theorems -/

namespace IWebClient

/-- C5. A default-constructed `RequestData` has status code 0, empty content and
`m_bDone = false`; the copy of any `RequestData`, also of one whose `m_bDone` is true, has
`m_bDone = false` and empty `m_Content`, and its version, status code, status message,
set-cookies and headers are those of the original. -/
theorem RequestData_terminal_flag_not_copied :
    RequestData.default.m_StatusCode = 0 ∧ RequestData.default.m_Content = "" ∧
    RequestData.default.m_bDone = false ∧
    ∀ r : RequestData,
      (RequestData.copy r).m_bDone = false ∧ (RequestData.copy r).m_Content = "" ∧
      (RequestData.copy r).m_Version = r.m_Version ∧
      (RequestData.copy r).m_StatusCode = r.m_StatusCode ∧
      (RequestData.copy r).m_StatusMessage = r.m_StatusMessage ∧
      (RequestData.copy r).m_SetCookies = r.m_SetCookies ∧
      (RequestData.copy r).m_Headers = r.m_Headers :=
  ⟨rfl, rfl, rfl, fun _ => ⟨rfl, rfl, rfl, rfl, rfl, rfl, rfl⟩⟩

/-- What `Request` does once `Create` has produced the client `p`: the five setters in
source order, then `Send`, each on `p`, and `p` handed back. -/
theorem Request_of_created {ω : Type} (I : Impl ω) (a_URL : URL) (a_Headers : Headers)
    (a_RequestType a_Body : String) (a_DataReceiver a_StateReceiver : Delegate)
    (s : Run ω) (p : Handle) (h : (I.Create a_URL s.world).1 = some p) :
    Request I a_URL a_Headers a_RequestType a_Body a_DataReceiver a_StateReceiver s =
      Except.ok (some p,
        { world := (I.Send p (I.SetStateReceiver p a_StateReceiver
            (I.SetDataReceiver p a_DataReceiver (I.SetBody p a_Body
              (I.SetRequestType p a_RequestType
                (I.SetHeaders p a_Headers false (I.Create a_URL s.world).2)))))).2
          trace := s.trace ++
            [Event.create a_URL (some p),
             Event.setHeaders p a_Headers false,
             Event.setRequestType p a_RequestType,
             Event.setBody p a_Body,
             Event.setDataReceiver p a_DataReceiver,
             Event.setStateReceiver p a_StateReceiver,
             Event.send p (I.Send p (I.SetStateReceiver p a_StateReceiver
               (I.SetDataReceiver p a_DataReceiver (I.SetBody p a_Body
                 (I.SetRequestType p a_RequestType
                   (I.SetHeaders p a_Headers false (I.Create a_URL s.world).2)))))).1] }) := by
  simp [Request, callCreate, callSetHeaders, callSetRequestType, callSetBody,
    callSetDataReceiver, callSetStateReceiver, callSend, h, deref, bind, Except.bind, pure,
    Except.pure]

/-- What `Request` does once `Create` has produced the empty pointer: the first call
through it, `spClient->SetHeaders`, faults. -/
theorem Request_of_empty {ω : Type} (I : Impl ω) (a_URL : URL) (a_Headers : Headers)
    (a_RequestType a_Body : String) (a_DataReceiver a_StateReceiver : Delegate)
    (s : Run ω) (h : (I.Create a_URL s.world).1 = none) :
    Request I a_URL a_Headers a_RequestType a_Body a_DataReceiver a_StateReceiver s =
      Except.error Fault.nullDeref := by
  simp [Request, callCreate, callSetHeaders, h, deref, bind, Except.bind]

/-- C1, refuted as stated: for the URL of an unregistered scheme `Create` yields no
client, and `Request` neither performs the call sequence on a client nor returns a
handle. -/
theorem Request_no_client_no_sequence :
    returned (Request sampleImpl unknownSchemeURL [("Accept", "text/plain")] "POST" "x" 7 8
      sampleRun) = none ∧
    ¬ ∃ (p : Handle) (accepted : Bool) (w : SampleWorld),
      Request sampleImpl unknownSchemeURL [("Accept", "text/plain")] "POST" "x" 7 8 sampleRun =
        Except.ok (some p,
          { world := w
            trace := sampleRun.trace ++
              [Event.create unknownSchemeURL (some p),
               Event.setHeaders p [("Accept", "text/plain")] false,
               Event.setRequestType p "POST",
               Event.setBody p "x",
               Event.setDataReceiver p 7,
               Event.setStateReceiver p 8,
               Event.send p accepted] }) := by
  have h := Request_of_empty sampleImpl unknownSchemeURL [("Accept", "text/plain")] "POST" "x"
    7 8 sampleRun (by decide)
  constructor
  · rw [h]
    rfl
  · rintro ⟨p, accepted, w, hw⟩
    rw [h] at hw
    cases hw

/-- C1, amended. Whenever `Create(url)` yields a client `p`, `Request` performs on `p`,
after the `Create`, exactly `SetHeaders(headers, false)`, `SetRequestType(type)`,
`SetBody(body)`, `SetDataReceiver(data)`, `SetStateReceiver(state)` and one `Send()`, in
this order, `Send` being the last call, and returns `p`. -/
theorem Request_call_sequence {ω : Type} (I : Impl ω) (a_URL : URL) (a_Headers : Headers)
    (a_RequestType a_Body : String) (a_DataReceiver a_StateReceiver : Delegate)
    (s : Run ω) (p : Handle) (h : (I.Create a_URL s.world).1 = some p) :
    ∃ (accepted : Bool) (w : ω),
      Request I a_URL a_Headers a_RequestType a_Body a_DataReceiver a_StateReceiver s =
        Except.ok (some p,
          { world := w
            trace := s.trace ++
              [Event.create a_URL (some p),
               Event.setHeaders p a_Headers false,
               Event.setRequestType p a_RequestType,
               Event.setBody p a_Body,
               Event.setDataReceiver p a_DataReceiver,
               Event.setStateReceiver p a_StateReceiver,
               Event.send p accepted] }) ∧
      (accepted, w) = I.Send p (I.SetStateReceiver p a_StateReceiver
        (I.SetDataReceiver p a_DataReceiver (I.SetBody p a_Body
          (I.SetRequestType p a_RequestType
            (I.SetHeaders p a_Headers false (I.Create a_URL s.world).2))))) :=
  ⟨_, _, Request_of_created I a_URL a_Headers a_RequestType a_Body a_DataReceiver
    a_StateReceiver s p h, rfl⟩

/-- C1 amended, at the sample client: `Create` yields client 0 and the six calls follow
on it. -/
theorem Request_call_sequence_witness :
    (sampleImpl.Create sampleURL sampleRun.world).1 = some 0 ∧
    ∃ (accepted : Bool) (w : SampleWorld),
      Request sampleImpl sampleURL [("Accept", "text/plain")] "GET" "" 7 8 sampleRun =
        Except.ok (some 0,
          { world := w
            trace := sampleRun.trace ++
              [Event.create sampleURL (some 0),
               Event.setHeaders 0 [("Accept", "text/plain")] false,
               Event.setRequestType 0 "GET",
               Event.setBody 0 "",
               Event.setDataReceiver 0 7,
               Event.setStateReceiver 0 8,
               Event.send 0 accepted] }) ∧
      (accepted, w) = sampleImpl.Send 0 (sampleImpl.SetStateReceiver 0 8
        (sampleImpl.SetDataReceiver 0 7 (sampleImpl.SetBody 0 ""
          (sampleImpl.SetRequestType 0 "GET"
            (sampleImpl.SetHeaders 0 [("Accept", "text/plain")] false
              (sampleImpl.Create sampleURL sampleRun.world).2))))) :=
  ⟨by decide, Request_call_sequence sampleImpl sampleURL [("Accept", "text/plain")] "GET" "" 7 8
    sampleRun 0 (by decide)⟩

/-- C2, refuted as stated: at the sample client the request without a method is rejected
by `Send` and the request with method `GET` is accepted, yet `Request` returns the same
value in both cases. -/
theorem Request_rejection_not_returned :
    Event.send 0 false ∈ traced (Request sampleImpl sampleURL [] "" "" 7 8 sampleRun) ∧
    Event.send 0 true ∈ traced (Request sampleImpl sampleURL [] "GET" "" 7 8 sampleRun) ∧
    returned (Request sampleImpl sampleURL [] "" "" 7 8 sampleRun) =
      returned (Request sampleImpl sampleURL [] "GET" "" 7 8 sampleRun) := by
  decide

/-- C2, amended. The value `Request` returns does not depend on what `Send` answers:
replacing the client's `Send` by any other one, accepting or rejecting, leaves the returned
handle unchanged, and whenever `Create` yields a client that handle is the client. -/
theorem Request_result_ignores_send {ω : Type} (I : Impl ω) (a_URL : URL)
    (a_Headers : Headers) (a_RequestType a_Body : String)
    (a_DataReceiver a_StateReceiver : Delegate) (s : Run ω) :
    (∀ send : Handle → ω → Bool × ω,
      returned (Request { I with Send := send } a_URL a_Headers a_RequestType a_Body
          a_DataReceiver a_StateReceiver s) =
        returned (Request I a_URL a_Headers a_RequestType a_Body a_DataReceiver
          a_StateReceiver s)) ∧
    (∀ p : Handle, (I.Create a_URL s.world).1 = some p →
      returned (Request I a_URL a_Headers a_RequestType a_Body a_DataReceiver
        a_StateReceiver s) = some (some p)) := by
  constructor
  · intro send
    cases h : (I.Create a_URL s.world).1 with
    | none =>
      rw [Request_of_empty I _ _ _ _ _ _ s h, Request_of_empty { I with Send := send } _ _ _ _ _ _ s h]
    | some p =>
      rw [Request_of_created I _ _ _ _ _ _ s p h,
        Request_of_created { I with Send := send } _ _ _ _ _ _ s p h]
      rfl
  · intro p h
    rw [Request_of_created I _ _ _ _ _ _ s p h]
    rfl

/-- C2 amended, at the sample client: with a `Send` that rejects everything the returned
handle is still client 0. -/
theorem Request_result_ignores_send_witness :
    (∀ send : Handle → SampleWorld → Bool × SampleWorld,
      returned (Request { sampleImpl with Send := send } sampleURL [] "GET" "" 7 8 sampleRun) =
        returned (Request sampleImpl sampleURL [] "GET" "" 7 8 sampleRun)) ∧
    (sampleImpl.Create sampleURL sampleRun.world).1 = some 0 ∧
    returned (Request sampleImpl sampleURL [] "GET" "" 7 8 sampleRun) = some (some 0) :=
  ⟨(Request_result_ignores_send sampleImpl sampleURL [] "GET" "" 7 8 sampleRun).1, by decide,
    (Request_result_ignores_send sampleImpl sampleURL [] "GET" "" 7 8 sampleRun).2 0 (by decide)⟩

/-- C3, the code at the failing input: for the URL of an unregistered scheme `Create`
yields the empty pointer, and `Request` does not report it: its first call through the
pointer, `spClient->SetHeaders`, is a null dereference. -/
theorem Request_unknown_scheme_null_deref :
    (sampleImpl.Create unknownSchemeURL sampleRun.world).1 = none ∧
    Request sampleImpl unknownSchemeURL [] "GET" "" 7 8 sampleRun =
      Except.error Fault.nullDeref :=
  ⟨by decide, Request_of_empty sampleImpl unknownSchemeURL [] "GET" "" 7 8 sampleRun (by decide)⟩

end IWebClient

namespace IWebClient

/-- One more operation at the end of a sequence is one more `apply`. -/
theorem Stats.run_snoc (ops : List StatsOp) (op : StatsOp) :
    Stats.run (ops ++ [op]) = Stats.apply (Stats.run ops) op := by
  simp [Stats.run, List.foldl_append]

/-- Each counter is the exact sum reduced modulo `UINT_RANGE`. -/
theorem Stats.run_mod (ops : List StatsOp) :
    (Stats.run ops).sm_RequestsSent = requestsOf ops % UINT_RANGE ∧
    (Stats.run ops).sm_BytesSent = bytesSentOf ops % UINT_RANGE ∧
    (Stats.run ops).sm_BytesRecv = bytesRecvOf ops % UINT_RANGE := by
  induction ops using List.reverseRecOn with
  | nil => simp [Stats.run, Stats.zero, requestsOf, bytesSentOf, bytesRecvOf]
  | append_singleton ops op ih =>
    obtain ⟨h1, h2, h3⟩ := ih
    rw [Stats.run_snoc]
    cases op with
    | send n =>
      simp [Stats.apply, requestsOf, bytesSentOf, bytesRecvOf, StatsOp.requests, StatsOp.sent,
        StatsOp.received] at *
      simp [h1, h2, h3, Nat.add_mod]
    | recv n =>
      simp [Stats.apply, requestsOf, bytesSentOf, bytesRecvOf, StatsOp.requests, StatsOp.sent,
        StatsOp.received] at *
      simp [h1, h2, h3, Nat.add_mod]

/-- C4, refuted as stated: after two deliveries of 2 GiB each `sm_BytesRecv` reads 0 while
4294967296 bytes were received, and this later read is smaller than the read taken after
the first delivery. -/
theorem Stats_wrap_around :
    (Stats.run [StatsOp.recv 2147483648, StatsOp.recv 2147483648]).sm_BytesRecv = 0 ∧
    bytesRecvOf [StatsOp.recv 2147483648, StatsOp.recv 2147483648] = 4294967296 ∧
    (Stats.run [StatsOp.recv 2147483648, StatsOp.recv 2147483648]).sm_BytesRecv <
      (Stats.run [StatsOp.recv 2147483648]).sm_BytesRecv := by
  decide

/-- C4, amended. After any sequence of accepted sends and deliveries, each counter equals
the exact sum reduced modulo 2^32; while the exact sum of a counter stays below 2^32 the
counter equals it, and a read taken earlier in the sequence is not larger. -/
theorem Stats_counters_modulo (earlier later : List StatsOp) :
    ((Stats.run (earlier ++ later)).sm_RequestsSent = requestsOf (earlier ++ later) % 2 ^ 32 ∧
     (Stats.run (earlier ++ later)).sm_BytesSent = bytesSentOf (earlier ++ later) % 2 ^ 32 ∧
     (Stats.run (earlier ++ later)).sm_BytesRecv = bytesRecvOf (earlier ++ later) % 2 ^ 32) ∧
    (requestsOf (earlier ++ later) < 2 ^ 32 →
      (Stats.run (earlier ++ later)).sm_RequestsSent = requestsOf (earlier ++ later) ∧
      (Stats.run earlier).sm_RequestsSent ≤ (Stats.run (earlier ++ later)).sm_RequestsSent) ∧
    (bytesSentOf (earlier ++ later) < 2 ^ 32 →
      (Stats.run (earlier ++ later)).sm_BytesSent = bytesSentOf (earlier ++ later) ∧
      (Stats.run earlier).sm_BytesSent ≤ (Stats.run (earlier ++ later)).sm_BytesSent) ∧
    (bytesRecvOf (earlier ++ later) < 2 ^ 32 →
      (Stats.run (earlier ++ later)).sm_BytesRecv = bytesRecvOf (earlier ++ later) ∧
      (Stats.run earlier).sm_BytesRecv ≤ (Stats.run (earlier ++ later)).sm_BytesRecv) := by
  have ha := Stats.run_mod (earlier ++ later)
  have he := Stats.run_mod earlier
  have hU : UINT_RANGE = 2 ^ 32 := rfl
  rw [hU] at ha he
  obtain ⟨a1, a2, a3⟩ := ha
  obtain ⟨e1, e2, e3⟩ := he
  have r : requestsOf (earlier ++ later) = requestsOf earlier + requestsOf later := by
    simp [requestsOf]
  have b : bytesSentOf (earlier ++ later) = bytesSentOf earlier + bytesSentOf later := by
    simp [bytesSentOf]
  have v : bytesRecvOf (earlier ++ later) = bytesRecvOf earlier + bytesRecvOf later := by
    simp [bytesRecvOf]
  refine ⟨⟨a1, a2, a3⟩, ?_, ?_, ?_⟩
  · intro h
    rw [a1, e1, Nat.mod_eq_of_lt h, Nat.mod_eq_of_lt (by omega)]
    exact ⟨rfl, by omega⟩
  · intro h
    rw [a2, e2, Nat.mod_eq_of_lt h, Nat.mod_eq_of_lt (by omega)]
    exact ⟨rfl, by omega⟩
  · intro h
    rw [a3, e3, Nat.mod_eq_of_lt h, Nat.mod_eq_of_lt (by omega)]
    exact ⟨rfl, by omega⟩

/-- C4 amended, at a short sequence: one send of 120 bytes, then a delivery of 4096 bytes
and a second send of 80 bytes; the three totals are below 2^32. -/
theorem Stats_counters_modulo_witness :
    (requestsOf ([StatsOp.send 120] ++ [StatsOp.recv 4096, StatsOp.send 80]) < 2 ^ 32 ∧
     bytesSentOf ([StatsOp.send 120] ++ [StatsOp.recv 4096, StatsOp.send 80]) < 2 ^ 32 ∧
     bytesRecvOf ([StatsOp.send 120] ++ [StatsOp.recv 4096, StatsOp.send 80]) < 2 ^ 32) ∧
    ((Stats.run ([StatsOp.send 120] ++ [StatsOp.recv 4096, StatsOp.send 80])).sm_RequestsSent =
        requestsOf ([StatsOp.send 120] ++ [StatsOp.recv 4096, StatsOp.send 80]) ∧
      (Stats.run [StatsOp.send 120]).sm_RequestsSent ≤
        (Stats.run ([StatsOp.send 120] ++ [StatsOp.recv 4096, StatsOp.send 80])).sm_RequestsSent) ∧
    ((Stats.run ([StatsOp.send 120] ++ [StatsOp.recv 4096, StatsOp.send 80])).sm_BytesSent =
        bytesSentOf ([StatsOp.send 120] ++ [StatsOp.recv 4096, StatsOp.send 80]) ∧
      (Stats.run [StatsOp.send 120]).sm_BytesSent ≤
        (Stats.run ([StatsOp.send 120] ++ [StatsOp.recv 4096, StatsOp.send 80])).sm_BytesSent) ∧
    ((Stats.run ([StatsOp.send 120] ++ [StatsOp.recv 4096, StatsOp.send 80])).sm_BytesRecv =
        bytesRecvOf ([StatsOp.send 120] ++ [StatsOp.recv 4096, StatsOp.send 80]) ∧
      (Stats.run [StatsOp.send 120]).sm_BytesRecv ≤
        (Stats.run ([StatsOp.send 120] ++ [StatsOp.recv 4096, StatsOp.send 80])).sm_BytesRecv) :=
  ⟨by decide,
    (Stats_counters_modulo [StatsOp.send 120] [StatsOp.recv 4096, StatsOp.send 80]).2.1
      (by decide),
    (Stats_counters_modulo [StatsOp.send 120] [StatsOp.recv 4096, StatsOp.send 80]).2.2.1
      (by decide),
    (Stats_counters_modulo [StatsOp.send 120] [StatsOp.recv 4096, StatsOp.send 80]).2.2.2
      (by decide)⟩

end IWebClient

namespace Log

/-- A text without a NUL is printed whole by `%s`. -/
theorem c_str_of_no_nul (s : String) (h : Char.ofNat 0 ∉ s.data) : c_str s = s := by
  have : s.data.takeWhile (fun c => decide (c ≠ Char.ofNat 0)) = s.data := by
    rw [List.takeWhile_eq_self_iff]
    intro c hc
    simp only [decide_eq_true_eq]
    rintro rfl
    exact h hc
  show String.mk _ = s
  rw [this]

/-- C6. Both reactors emit a record exactly when its level is at least the reactor's
minimum, in the order DEBUG_LOW < DEBUG_MED < DEBUG_HIGH < STATUS < WARNING < ERROR <
CRITICAL; what is emitted is one text, "[time][label][subsystem] message" and a newline,
where the label is `LevelText` of the level: DEBL, DEBM, DEBH, STAT, WARN, ERRO, CRIT for
the levels 0 to 6, each an in-bounds read of the table; a record below the minimum emits
nothing and leaves the reactor unchanged. -/
theorem Process_level_filter_and_format (a_Record : LogRecord) (m : LogLevel)
    (stdout : List String) (file : FileReactor) :
    ([LogLevel.LL_DEBUG_LOW, LogLevel.LL_DEBUG_MED, LogLevel.LL_DEBUG_HIGH, LogLevel.LL_STATUS,
        LogLevel.LL_WARNING, LogLevel.LL_ERROR, LogLevel.LL_CRITICAL].map LogLevel.toNat =
      [0, 1, 2, 3, 4, 5, 6]) ∧
    (ConsoleReactor.Process { m_MinLevel := m } a_Record stdout =
        stdout ++ [formatRecord a_Record] ↔ a_Record.m_Level.toNat ≥ m.toNat) ∧
    (a_Record.m_Level.toNat < m.toNat →
      ConsoleReactor.Process { m_MinLevel := m } a_Record stdout = stdout) ∧
    (FileReactor.Process { file with m_MinLevel := m } a_Record =
        { file with m_MinLevel := m, m_Output := file.m_Output ++ [formatRecord a_Record] } ↔
      a_Record.m_Level.toNat ≥ m.toNat) ∧
    (a_Record.m_Level.toNat < m.toNat →
      FileReactor.Process { file with m_MinLevel := m } a_Record =
        { file with m_MinLevel := m }) ∧
    formatRecord a_Record =
      "[" ++ c_str a_Record.m_Time ++ "][" ++ LevelText a_Record.m_Level ++ "][" ++
        c_str a_Record.m_SubSystem ++ "] " ++ c_str a_Record.m_Message ++ "\n" ∧
    (Char.ofNat 0 ∉ a_Record.m_Time.data → Char.ofNat 0 ∉ a_Record.m_SubSystem.data →
      Char.ofNat 0 ∉ a_Record.m_Message.data →
      formatRecord a_Record =
        "[" ++ a_Record.m_Time ++ "][" ++ LevelText a_Record.m_Level ++ "][" ++
          a_Record.m_SubSystem ++ "] " ++ a_Record.m_Message ++ "\n") ∧
    LEVELS[a_Record.m_Level.toNat]? = some (LevelText a_Record.m_Level) ∧
    [LogLevel.LL_DEBUG_LOW, LogLevel.LL_DEBUG_MED, LogLevel.LL_DEBUG_HIGH, LogLevel.LL_STATUS,
        LogLevel.LL_WARNING, LogLevel.LL_ERROR, LogLevel.LL_CRITICAL].map LevelText =
      ["DEBL", "DEBM", "DEBH", "STAT", "WARN", "ERRO", "CRIT"] := by
  refine ⟨rfl, ?_, ?_, ?_, ?_, rfl, ?_, ?_, rfl⟩
  · constructor
    · intro h
      by_contra hlt
      simp [ConsoleReactor.Process, hlt] at h
    · intro h
      simp [ConsoleReactor.Process, h]
  · intro h
    have : ¬ a_Record.m_Level.toNat ≥ m.toNat := by omega
    simp [ConsoleReactor.Process, this]
  · constructor
    · intro h
      by_contra hlt
      simp [FileReactor.Process, hlt] at h
    · intro h
      simp [FileReactor.Process, h]
  · intro h
    have : ¬ a_Record.m_Level.toNat ≥ m.toNat := by omega
    simp [FileReactor.Process, this]
  · intro h1 h2 h3
    simp [formatRecord, c_str_of_no_nul _ h1, c_str_of_no_nul _ h2, c_str_of_no_nul _ h3]
  · cases h : a_Record.m_Level <;> rfl

/-- C6, at the sample record (a warning) and a reactor of minimum level CRITICAL: the
record is below the minimum and leaves both reactors unchanged; its fields hold no NUL. -/
theorem Process_level_filter_and_format_witness :
    sampleRecord.m_Level.toNat < LogLevel.LL_CRITICAL.toNat ∧
    ConsoleReactor.Process { m_MinLevel := LogLevel.LL_CRITICAL } sampleRecord ["hello"] =
      ["hello"] ∧
    FileReactor.Process
        { ({ m_LogFile := "a.log", m_MinLevel := LogLevel.LL_STATUS, m_Output := ["x"] } :
            FileReactor) with m_MinLevel := LogLevel.LL_CRITICAL } sampleRecord =
      { ({ m_LogFile := "a.log", m_MinLevel := LogLevel.LL_STATUS, m_Output := ["x"] } :
            FileReactor) with m_MinLevel := LogLevel.LL_CRITICAL } ∧
    (Char.ofNat 0 ∉ sampleRecord.m_Time.data ∧ Char.ofNat 0 ∉ sampleRecord.m_SubSystem.data ∧
      Char.ofNat 0 ∉ sampleRecord.m_Message.data) ∧
    formatRecord sampleRecord =
      "[" ++ sampleRecord.m_Time ++ "][" ++ LevelText sampleRecord.m_Level ++ "][" ++
        sampleRecord.m_SubSystem ++ "] " ++ sampleRecord.m_Message ++ "\n" :=
  have w := Process_level_filter_and_format sampleRecord LogLevel.LL_CRITICAL ["hello"]
    { m_LogFile := "a.log", m_MinLevel := LogLevel.LL_STATUS, m_Output := ["x"] }
  ⟨by decide, w.2.2.1 (by decide), w.2.2.2.2.1 (by decide),
    ⟨by decide, by decide, by decide⟩,
    w.2.2.2.2.2.2.1 (by decide) (by decide) (by decide)⟩

end Log

namespace Log

/-- The member `remove` keeps exactly the elements different from `value`, in order. -/
theorem listRemove_eq_filter (value : ReactorPtr) (l : List ReactorPtr) :
    listRemove value l = l.filter (fun x => x ≠ value) := by
  induction l with
  | nil => rfl
  | cons x rest ih =>
    by_cases h : x = value
    · simp [listRemove, h, ih]
    · simp [listRemove, h, ih]

/-- The statement `delete` returns on a pointer that is not a deleted reactor, and
leaves the deleted reactors with at most that pointer added. -/
theorem deleteReactor_ok (p : ReactorPtr) (deleted : List ReactorPtr) (h : p ∉ deleted) :
    ∃ d2, deleteReactor p deleted = Except.ok d2 ∧ ∀ q, q ∈ d2 → q ∈ deleted ∨ q = p := by
  by_cases hn : p = NULL
  · exact ⟨deleted, by simp [deleteReactor, hn], fun q hq => Or.inl hq⟩
  · refine ⟨deleted ++ [p], by simp [deleteReactor, hn, h], ?_⟩
    intro q hq
    rcases List.mem_append.mp hq with h1 | h1
    · exact Or.inl h1
    · exact Or.inr (by simpa using h1)

/-- A reactor that has been deleted cannot be deleted again. -/
theorem deleteReactor_fault (p : ReactorPtr) (deleted : List ReactorPtr) (hn : p ≠ NULL)
    (h : p ∈ deleted) : deleteReactor p deleted = Except.error (MemFault.doubleDelete p) := by
  simp [deleteReactor, hn, h]

/-- The list `RemoveReactor` leaves, when it returns. -/
theorem RemoveReactor_reactors (r : ReactorPtr) (d : Bool) (s s1 : ReactorList)
    (h : RemoveReactor r d s = Except.ok s1) :
    s1.reactors = s.reactors.filter (fun p => p ≠ r) := by
  rw [← listRemove_eq_filter]
  cases d with
  | false =>
    have e : RemoveReactor r false s =
        Except.ok { s with reactors := listRemove r s.reactors } := rfl
    rw [e] at h
    cases h
    rfl
  | true =>
    cases hd : deleteReactor r s.deleted with
    | error f =>
      have e : RemoveReactor r true s = Except.error f := by
        simp [RemoveReactor, hd, bind, Except.bind]
      rw [e] at h
      cases h
    | ok d2 =>
      have e : RemoveReactor r true s =
          Except.ok { reactors := listRemove r s.reactors, deleted := d2 } := by
        simp [RemoveReactor, hd, bind, Except.bind, pure, Except.pure]
      rw [e] at h
      cases h
      rfl

/-- `RemoveReactor` returns when the reactor has not been deleted before. -/
theorem RemoveReactor_ok (r : ReactorPtr) (d : Bool) (s : ReactorList) (hd : r ∉ s.deleted) :
    ∃ s1, RemoveReactor r d s = Except.ok s1 := by
  cases d with
  | false => exact ⟨_, rfl⟩
  | true =>
    obtain ⟨d2, hd2, _⟩ := deleteReactor_ok r s.deleted hd
    exact ⟨{ reactors := listRemove r s.reactors, deleted := d2 }, by
      simp [RemoveReactor, hd2, bind, Except.bind, pure, Except.pure]⟩

/-- The deleting loop returns on a list without repetition and without deleted reactors. -/
theorem deleteEach_ok (l : List ReactorPtr) : ∀ deleted : List ReactorPtr, l.Nodup →
    (∀ p ∈ l, p ∉ deleted) → ∃ d2, deleteEach l deleted = Except.ok d2 := by
  induction l with
  | nil => intro deleted _ _; exact ⟨deleted, rfl⟩
  | cons x rest ih =>
    intro deleted hn hl
    have hx : x ∉ deleted := hl x (List.mem_cons_self _ _)
    obtain ⟨hxr, hrn⟩ := List.nodup_cons.mp hn
    obtain ⟨d1, hd1, hsub⟩ := deleteReactor_ok x deleted hx
    obtain ⟨d2, hd2⟩ := ih d1 hrn (by
      intro p hp hmem
      rcases hsub p hmem with h1 | h1
      · exact hl p (List.mem_cons_of_mem _ hp) h1
      · exact hxr (h1 ▸ hp))
    exact ⟨d2, by simp [deleteEach, hd1, bind, Except.bind, hd2]⟩

/-- The list `RemoveAllReactors` leaves, when it returns, is empty. -/
theorem RemoveAllReactors_reactors (d : Bool) (s s1 : ReactorList)
    (h : RemoveAllReactors d s = Except.ok s1) : s1.reactors = [] := by
  cases d with
  | false =>
    have e : RemoveAllReactors false s = Except.ok { s with reactors := [] } := rfl
    rw [e] at h
    cases h
    rfl
  | true =>
    cases hde : deleteEach s.reactors s.deleted with
    | error f =>
      have e : RemoveAllReactors true s = Except.error f := by
        simp [RemoveAllReactors, hde, bind, Except.bind]
      rw [e] at h
      cases h
    | ok d2 =>
      have e : RemoveAllReactors true s = Except.ok { reactors := [], deleted := d2 } := by
        simp [RemoveAllReactors, hde, bind, Except.bind, pure, Except.pure]
      rw [e] at h
      cases h
      rfl

/-- `RemoveAllReactors` returns when it does not delete, and when the list holds no
reactor twice and no deleted reactor. -/
theorem RemoveAllReactors_ok (d : Bool) (s : ReactorList)
    (h : d = false ∨ (s.reactors.Nodup ∧ ∀ p ∈ s.reactors, p ∉ s.deleted)) :
    ∃ s1, RemoveAllReactors d s = Except.ok s1 := by
  cases d with
  | false => exact ⟨_, rfl⟩
  | true =>
    rcases h with h | ⟨hn, hl⟩
    · cases h
    · obtain ⟨d2, hd2⟩ := deleteEach_ok s.reactors s.deleted hn hl
      exact ⟨{ reactors := [], deleted := d2 }, by
        simp [RemoveAllReactors, hd2, bind, Except.bind, pure, Except.pure]⟩

/-- The dispatch loop over a list of live reactors, none null and none deleted, calls
each element once, in list order. -/
theorem dispatch_ok (rec : LogRecord) (deleted l : List ReactorPtr)
    (h : ∀ p ∈ l, p ≠ NULL ∧ p ∉ deleted) :
    dispatch rec deleted l = Except.ok (l.map (fun p => (p, rec))) := by
  induction l with
  | nil => rfl
  | cons x rest ih =>
    obtain ⟨hn, hx⟩ := h x (List.mem_cons_self _ _)
    have hr := ih (fun p hp => h p (List.mem_cons_of_mem _ hp))
    simp [dispatch, hn, hx, hr, bind, Except.bind, pure, Except.pure]

/-- A sequence of calls returns exactly when its first call returns and the rest returns
from there. -/
theorem runFrom_cons (s s2 : ReactorList) (op : LogOp) (rest : List LogOp) :
    runFrom s (op :: rest) = Except.ok s2 ↔
      ∃ s1, LogOp.apply s op = Except.ok s1 ∧ runFrom s1 rest = Except.ok s2 := by
  cases h : LogOp.apply s op <;> simp [runFrom, h, bind, Except.bind]

/-- The list after a sequence of calls that returns: what was there and is not taken
away, followed by the standing registrations of the sequence. -/
theorem runFrom_reactors (ops : List LogOp) : ∀ s s2 : ReactorList,
    runFrom s ops = Except.ok s2 →
    s2.reactors =
      s.reactors.filter (fun q => !(ops.any (LogOp.cancels q))) ++ standing ops := by
  induction ops with
  | nil =>
    intro s s2 h
    have e : runFrom s [] = Except.ok s := rfl
    rw [e] at h
    cases h
    simp [standing]
  | cons op rest ih =>
    intro s s2 h
    obtain ⟨s1, hop, hrest⟩ := (runFrom_cons s s2 op rest).mp h
    rw [ih s1 s2 hrest]
    cases op with
    | register p =>
      have e0 : LogOp.apply s (LogOp.register p) = Except.ok (RegisterReactor p s) := rfl
      rw [e0] at hop
      cases hop
      have e1 : (RegisterReactor p s).reactors = s.reactors ++ [p] := rfl
      have e2 : ∀ q, (LogOp.register p :: rest).any (LogOp.cancels q) =
          rest.any (LogOp.cancels q) := by
        intro q
        simp [LogOp.cancels]
      rw [e1, List.filter_append]
      simp only [e2, standing]
      cases hp : rest.any (LogOp.cancels p) with
      | true => simp [List.filter_cons, hp]
      | false => simp [List.filter_cons, hp]
    | remove p d =>
      have hr : s1.reactors = s.reactors.filter (fun x => x ≠ p) :=
        RemoveReactor_reactors p d s s1 hop
      rw [hr, List.filter_filter]
      simp only [standing, List.any_cons, LogOp.cancels]
      congr 1
      apply List.filter_congr
      intro q _
      by_cases hq : p = q
      · simp [hq]
      · have hq2 : ¬ q = p := fun h => hq h.symm
        simp [hq, hq2]
    | removeAll d =>
      have hr : s1.reactors = [] := RemoveAllReactors_reactors d s s1 hop
      simp [hr, standing, LogOp.cancels]

/-- A reactor that is not in the list stays out of it as long as it is not registered. -/
theorem runFrom_not_mem (r : ReactorPtr) (later : List LogOp) : ∀ s s2 : ReactorList,
    r ∉ s.reactors → LogOp.register r ∉ later → runFrom s later = Except.ok s2 →
    r ∉ s2.reactors := by
  induction later with
  | nil =>
    intro s s2 hs _ h
    have e : runFrom s [] = Except.ok s := rfl
    rw [e] at h
    cases h
    exact hs
  | cons op rest ih =>
    intro s s2 hs hl h
    obtain ⟨s1, hop, hrest⟩ := (runFrom_cons s s2 op rest).mp h
    refine ih s1 s2 ?_ (fun hmem => hl (List.mem_cons_of_mem _ hmem)) hrest
    cases op with
    | register p =>
      have hne : r ≠ p := by
        rintro rfl
        exact hl (List.mem_cons_self _ _)
      have e0 : LogOp.apply s (LogOp.register p) = Except.ok (RegisterReactor p s) := rfl
      rw [e0] at hop
      cases hop
      simp [RegisterReactor, hs, hne]
    | remove p d =>
      rw [RemoveReactor_reactors p d s s1 hop]
      intro hmem
      exact hs (List.mem_filter.mp hmem).1
    | removeAll d =>
      rw [RemoveAllReactors_reactors d s s1 hop]
      simp

/-- C7, refuted as stated.  With a reactor registered twice, `RemoveAllReactors()` (its
`a_bDelete` left at `true`) deletes that reactor twice, a fault and no list state; a
reactor registered again after `RemoveReactor(1)` deleted it, and a registered null
pointer, make `ProcessRecord` call `Process` through a pointer to no live reactor; and
after `RemoveReactor(1, false)` reactor 1, registered again, does receive the next
record. -/
theorem RemoveAllReactors_deletes_twice :
    run [LogOp.register 1, LogOp.register 1, LogOp.removeAll true] =
      Except.error (MemFault.doubleDelete 1) ∧
    (run [LogOp.register 1, LogOp.remove 1 true, LogOp.register 1] =
        Except.ok { reactors := [1], deleted := [1] } ∧
      ProcessRecord { reactors := [1], deleted := [1] } sampleRecord =
        Except.error (MemFault.useAfterDelete 1)) ∧
    (run [LogOp.register NULL] = Except.ok { reactors := [NULL], deleted := [] } ∧
      ProcessRecord { reactors := [NULL], deleted := [] } sampleRecord =
        Except.error MemFault.nullDeref) ∧
    (run [LogOp.register 1, LogOp.remove 1 false, LogOp.register 1] =
        Except.ok { reactors := [1], deleted := [] } ∧
      ProcessRecord { reactors := [1], deleted := [] } sampleRecord =
        Except.ok [(1, sampleRecord)]) := by
  refine ⟨rfl, ⟨rfl, rfl⟩, ⟨rfl, rfl⟩, ⟨rfl, rfl⟩⟩

/-- C7, amended.  After any sequence of `RegisterReactor`, `RemoveReactor` and
`RemoveAllReactors` calls that deletes no reactor twice, the list holds exactly the
standing registrations, in registration order and once per registration, and
`ProcessRecord` calls `Process` on exactly these as long as none of them is null or
deleted; `RemoveReactor(r)` returns for a reactor not deleted before and leaves the list
without `r` and with the other entries in their order; `RemoveAllReactors` returns when
it does not delete or the list holds no reactor twice and none deleted, and leaves the
list empty; and after `RemoveReactor(r)` or `RemoveAllReactors`, whatever calls follow
short of registering `r` again, `ProcessRecord` makes no call on `r`. -/
theorem ProcessRecord_dispatches_standing (ops later : List LogOp) (rec : LogRecord)
    (r : ReactorPtr) (a_bDelete a_bDeleteAll : Bool) (s : ReactorList)
    (hrun : run ops = Except.ok s) :
    s.reactors = standing ops ∧
    ((∀ p ∈ s.reactors, p ≠ NULL ∧ p ∉ s.deleted) →
      ProcessRecord s rec = Except.ok ((standing ops).map (fun p => (p, rec)))) ∧
    (r ∉ s.deleted → ∃ s1, RemoveReactor r a_bDelete s = Except.ok s1) ∧
    (∀ s1, RemoveReactor r a_bDelete s = Except.ok s1 →
      s1.reactors = s.reactors.filter (fun p => p ≠ r) ∧ r ∉ s1.reactors) ∧
    ((a_bDeleteAll = false ∨ (s.reactors.Nodup ∧ ∀ p ∈ s.reactors, p ∉ s.deleted)) →
      ∃ s1, RemoveAllReactors a_bDeleteAll s = Except.ok s1) ∧
    (∀ s1, RemoveAllReactors a_bDeleteAll s = Except.ok s1 → s1.reactors = []) ∧
    (∀ s1 s2, RemoveReactor r a_bDelete s = Except.ok s1 ∨
        RemoveAllReactors a_bDeleteAll s = Except.ok s1 →
      LogOp.register r ∉ later → runFrom s1 later = Except.ok s2 →
      (∀ p ∈ s2.reactors, p ≠ NULL ∧ p ∉ s2.deleted) →
      r ∉ s2.reactors ∧
      ∃ calls, ProcessRecord s2 rec = Except.ok calls ∧ (r, rec) ∉ calls) := by
  have hlist : s.reactors = standing ops := by
    have h := runFrom_reactors ops ReactorList.empty s hrun
    simpa [ReactorList.empty] using h
  have hrem : ∀ s1, RemoveReactor r a_bDelete s = Except.ok s1 →
      s1.reactors = s.reactors.filter (fun p => p ≠ r) ∧ r ∉ s1.reactors := by
    intro s1 h1
    have e := RemoveReactor_reactors r a_bDelete s s1 h1
    refine ⟨e, ?_⟩
    rw [e]
    simp
  refine ⟨hlist, ?_, RemoveReactor_ok r a_bDelete s, hrem, RemoveAllReactors_ok a_bDeleteAll s,
    RemoveAllReactors_reactors a_bDeleteAll s, ?_⟩
  · intro hlive
    rw [← hlist]
    exact dispatch_ok rec s.deleted s.reactors hlive
  · intro s1 s2 h1 hl h2 hlive
    have hnot1 : r ∉ s1.reactors := by
      rcases h1 with h1 | h1
      · exact (hrem s1 h1).2
      · rw [RemoveAllReactors_reactors a_bDeleteAll s s1 h1]
        simp
    have hnot2 : r ∉ s2.reactors := runFrom_not_mem r later s1 s2 hnot1 hl h2
    refine ⟨hnot2, _, dispatch_ok rec s2.deleted s2.reactors hlive, ?_⟩
    simp only [List.mem_map, not_exists, not_and]
    intro q hq heq
    exact hnot2 ((Prod.mk.inj heq).1 ▸ hq)

/-- C7 amended, at the sample history, in which reactor 1 is registered twice:
`RemoveReactor(1, true)` takes both registrations away and deletes reactor 1 once,
`RemoveAllReactors(false)` empties the list, and with reactor 2 registered once more
afterwards no call reaches reactor 1. -/
theorem ProcessRecord_dispatches_standing_witness :
    run sampleHistory = Except.ok { reactors := [1, 2, 1, 3], deleted := [] } ∧
    ProcessRecord { reactors := [1, 2, 1, 3], deleted := [] } sampleRecord =
      Except.ok ((standing sampleHistory).map (fun p => (p, sampleRecord))) ∧
    standing sampleHistory = [1, 2, 1, 3] ∧
    (∃ s1, RemoveReactor 1 true { reactors := [1, 2, 1, 3], deleted := [] } = Except.ok s1) ∧
    (RemoveReactor 1 true { reactors := [1, 2, 1, 3], deleted := [] } =
      Except.ok { reactors := [2, 3], deleted := [1] }) ∧
    (({ reactors := [2, 3], deleted := [1] } : ReactorList).reactors =
        ({ reactors := [1, 2, 1, 3], deleted := [] } : ReactorList).reactors.filter
          (fun p => p ≠ 1) ∧
      1 ∉ ({ reactors := [2, 3], deleted := [1] } : ReactorList).reactors) ∧
    (∃ s1, RemoveAllReactors false { reactors := [1, 2, 1, 3], deleted := [] } = Except.ok s1) ∧
    ({ reactors := [], deleted := [] } : ReactorList).reactors = [] ∧
    (runFrom { reactors := [2, 3], deleted := [1] } [LogOp.register 2] =
      Except.ok { reactors := [2, 3, 2], deleted := [1] }) ∧
    (1 ∉ ({ reactors := [2, 3, 2], deleted := [1] } : ReactorList).reactors ∧
      ∃ calls, ProcessRecord { reactors := [2, 3, 2], deleted := [1] } sampleRecord =
        Except.ok calls ∧ (1, sampleRecord) ∉ calls) ∧
    (1 ∉ ({ reactors := [2], deleted := [] } : ReactorList).reactors ∧
      ∃ calls, ProcessRecord { reactors := [2], deleted := [] } sampleRecord =
        Except.ok calls ∧ (1, sampleRecord) ∉ calls) :=
  have w := ProcessRecord_dispatches_standing sampleHistory [LogOp.register 2] sampleRecord 1
    true false { reactors := [1, 2, 1, 3], deleted := [] } rfl
  ⟨rfl, w.2.1 (by decide), rfl, w.2.2.1 (by decide), rfl,
    w.2.2.2.1 { reactors := [2, 3], deleted := [1] } rfl,
    w.2.2.2.2.1 (Or.inl rfl),
    w.2.2.2.2.2.1 { reactors := [], deleted := [] } rfl, rfl,
    w.2.2.2.2.2.2 { reactors := [2, 3], deleted := [1] } { reactors := [2, 3, 2], deleted := [1] }
      (Or.inl rfl) (by decide) rfl (by decide),
    w.2.2.2.2.2.2 { reactors := [], deleted := [] } { reactors := [2], deleted := [] }
      (Or.inr rfl) (by decide) rfl (by decide)⟩

/-- The writing loop appends the local list to the file, in list order. -/
theorem fwriteEach_eq_append (output file : List String) :
    fwriteEach output file = file ++ output := by
  induction output generalizing file with
  | nil => simp [fwriteEach]
  | cons log rest ih => simp [fwriteEach, ih]

/-- A turn of the write thread whose `fopen` succeeds moves the pending lines to the end
of the file. -/
theorem WriteThread_step_ok (s : FileState) :
    (WriteThread_step true s).file = s.file ++ s.reactor.m_Output ∧
    (WriteThread_step true s).reactor.m_Output = [] ∧
    (WriteThread_step true s).reactor.m_MinLevel = s.reactor.m_MinLevel := by
  by_cases h : s.reactor.m_Output = []
  · simp [WriteThread_step, h]
  · simp [WriteThread_step, h, fwriteEach_eq_append]

/-- The invariant of the file reactor: along any sequence of steps none of whose `fopen`
fails, file followed by queue grows by exactly the accepted lines. -/
theorem FileState.run_invariant (steps : List FileStep) (s : FileState)
    (h : FileStep.drain false ∉ steps) :
    (s.run steps).file ++ (s.run steps).reactor.m_Output =
      s.file ++ s.reactor.m_Output ++ acceptedLines s.reactor.m_MinLevel steps := by
  induction steps generalizing s with
  | nil => simp [FileState.run, acceptedLines]
  | cons st rest ih =>
    have step : s.run (st :: rest) = (FileStep.apply s st).run rest := rfl
    have hrest : FileStep.drain false ∉ rest := fun hm => h (List.mem_cons_of_mem _ hm)
    rw [step, ih _ hrest]
    cases st with
    | process a_Record =>
      by_cases hl : a_Record.m_Level.toNat ≥ s.reactor.m_MinLevel.toNat
      · simp [FileStep.apply, FileReactor.Process, acceptedLines, hl]
      · simp [FileStep.apply, FileReactor.Process, acceptedLines, hl]
    | drain fopenOk =>
      cases fopenOk with
      | false => exact absurd (List.mem_cons_self _ _) h
      | true =>
        obtain ⟨h1, h2, h3⟩ := WriteThread_step_ok s
        simp [FileStep.apply, acceptedLines, h1, h2, h3]

/-- C8. `FileReactor::Process` writes nothing to the file and puts the formatted line of
an accepted record at the end of the pending queue; a turn of the write thread leaves the
queue empty; and after any interleaving of `Process` calls and write-thread turns whose
`fopen` all succeed, the lines written to the file followed by the pending lines are the
accepted lines in acceptance order. -/
theorem FileReactor_keeps_accepted_lines (s : FileState) (a_Record : LogRecord)
    (fopenOk : Bool) (a_pLogFile : String) (a_MinLevel : LogLevel) (steps : List FileStep) :
    (FileStep.apply s (FileStep.process a_Record)).file = s.file ∧
    (a_Record.m_Level.toNat ≥ s.reactor.m_MinLevel.toNat →
      (FileStep.apply s (FileStep.process a_Record)).reactor.m_Output =
        s.reactor.m_Output ++ [formatRecord a_Record]) ∧
    (WriteThread_step fopenOk s).reactor.m_Output = [] ∧
    (FileStep.drain false ∉ steps →
      ((FileState.start a_pLogFile a_MinLevel).run steps).file ++
          ((FileState.start a_pLogFile a_MinLevel).run steps).reactor.m_Output =
        acceptedLines a_MinLevel steps) := by
  refine ⟨rfl, ?_, ?_, ?_⟩
  · intro hl
    simp [FileStep.apply, FileReactor.Process, hl]
  · by_cases h : s.reactor.m_Output = []
    · simp [WriteThread_step, h]
    · cases fopenOk <;> simp [WriteThread_step, h]
  · intro h
    have inv := FileState.run_invariant steps (FileState.start a_pLogFile a_MinLevel) h
    simpa [FileState.start] using inv

/-- C8, at a short interleaving with minimum level STATUS: a warning is processed, the
write thread takes a turn, a low debug record is processed and dropped, and a second
warning is processed and stays pending. -/
theorem FileReactor_keeps_accepted_lines_witness :
    (sampleRecord.m_Level.toNat ≥
      (FileState.start "a.log" LogLevel.LL_STATUS).reactor.m_MinLevel.toNat) ∧
    (FileStep.apply (FileState.start "a.log" LogLevel.LL_STATUS)
        (FileStep.process sampleRecord)).reactor.m_Output =
      (FileState.start "a.log" LogLevel.LL_STATUS).reactor.m_Output ++
        [formatRecord sampleRecord] ∧
    FileStep.drain false ∉ [FileStep.process sampleRecord, FileStep.drain true,
      FileStep.process sampleDebugRecord, FileStep.process sampleRecord] ∧
    ((FileState.start "a.log" LogLevel.LL_STATUS).run [FileStep.process sampleRecord,
        FileStep.drain true, FileStep.process sampleDebugRecord,
        FileStep.process sampleRecord]).file ++
      ((FileState.start "a.log" LogLevel.LL_STATUS).run [FileStep.process sampleRecord,
        FileStep.drain true, FileStep.process sampleDebugRecord,
        FileStep.process sampleRecord]).reactor.m_Output =
      acceptedLines LogLevel.LL_STATUS [FileStep.process sampleRecord, FileStep.drain true,
        FileStep.process sampleDebugRecord, FileStep.process sampleRecord] ∧
    acceptedLines LogLevel.LL_STATUS [FileStep.process sampleRecord, FileStep.drain true,
        FileStep.process sampleDebugRecord, FileStep.process sampleRecord] =
      [formatRecord sampleRecord, formatRecord sampleRecord] :=
  have w := FileReactor_keeps_accepted_lines (FileState.start "a.log" LogLevel.LL_STATUS)
    sampleRecord true "a.log" LogLevel.LL_STATUS [FileStep.process sampleRecord,
      FileStep.drain true, FileStep.process sampleDebugRecord, FileStep.process sampleRecord]
  ⟨by decide, w.2.1 (by decide), by decide, w.2.2.2 (by decide), by decide⟩

end Log

namespace Log

/-- The decimal digit characters have the values 0 to 9. -/
theorem digitChar_value (d : Nat) (h : d < 10) : (Nat.digitChar d).toNat - 48 = d := by
  interval_cases d <;> rfl

/-- The digits `Nat.toDigitsCore` puts in front of its accumulator stand for the number. -/
theorem toDigitsCore_value (fuel : Nat) : ∀ (n : Nat) (ds : List Char), n < fuel →
    ∃ pre, Nat.toDigitsCore 10 fuel n ds = pre ++ ds ∧ decimalValue pre = n := by
  induction fuel with
  | zero => intro n ds h; omega
  | succ fuel ih =>
    intro n ds h
    by_cases h0 : n / 10 = 0
    · refine ⟨[Nat.digitChar (n % 10)], ?_, ?_⟩
      · simp [Nat.toDigitsCore, h0]
      · have hn : n % 10 = n := by omega
        have hd := digitChar_value (n % 10) (Nat.mod_lt _ (by decide))
        rw [hn] at hd
        simp [decimalValue, hn, hd]
    · obtain ⟨pre, hpre, hval⟩ := ih (n / 10) (Nat.digitChar (n % 10) :: ds) (by omega)
      refine ⟨pre ++ [Nat.digitChar (n % 10)], ?_, ?_⟩
      · simp [Nat.toDigitsCore, h0, hpre]
      · have hv : decimalValue (pre ++ [Nat.digitChar (n % 10)]) =
            decimalValue pre * 10 + ((Nat.digitChar (n % 10)).toNat - 48) := by
          simp [decimalValue, List.foldl_append]
        rw [hv, hval, digitChar_value (n % 10) (Nat.mod_lt _ (by decide))]
        omega

/-- The decimal text of a natural number determines the number. -/
theorem decimalValue_repr (n : Nat) : decimalValue (Nat.repr n).data = n := by
  obtain ⟨pre, hpre, hval⟩ := toDigitsCore_value (n + 1) n [] (by omega)
  have : (Nat.repr n).data = pre := by
    simp [Nat.repr, Nat.toDigits, hpre, List.asString]
  rw [this, hval]

/-- The names `file.i` and `file.j` differ when `i` and `j` do. -/
theorem logName_injective (a_pLogFile : String) (i j : Nat)
    (h : logName a_pLogFile (i : Int) = logName a_pLogFile (j : Int)) : i = j := by
  have hd := congrArg String.data h
  have hi : toString ((i : Nat) : Int) = Nat.repr i := rfl
  have hj : toString ((j : Nat) : Int) = Nat.repr j := rfl
  simp only [logName, String.data_append, hi, hj] at hd
  have hr : (Nat.repr i).data = (Nat.repr j).data := List.append_cancel_left hd
  have := congrArg decimalValue hr
  rwa [decimalValue_repr, decimalValue_repr] at this

/-- The name `file.i` is not the name of the log file. -/
theorem logName_ne_self (a_pLogFile : String) (i : Int) : logName a_pLogFile i ≠ a_pLogFile := by
  intro h
  have hl := congrArg String.length h
  have hdot : ".".length = 1 := rfl
  simp only [logName, String.length_append, hdot] at hl
  omega

end Log

namespace Log

/-- The loop entered with counter `k` and `file.k` free: it ends without an exception,
each `file.j` for `1 ≤ j ≤ k` holds what `file.(j-1)` held, `file.0` is gone when the
loop ran at all, and no other name is touched. -/
theorem rotateLoop_spec (f : String) (k : Nat) : ∀ fs : FS,
    fs (logName f ((k : Nat) : Int)) = none →
    ∃ fs2, rotateLoop f k fs = Except.ok fs2 ∧
      (k = 0 → fs2 = fs) ∧
      (1 ≤ k → fs2 (logName f ((0 : Nat) : Int)) = none) ∧
      (∀ j : Nat, 1 ≤ j → j ≤ k →
        fs2 (logName f ((j : Nat) : Int)) = fs (logName f ((j - 1 : Nat) : Int))) ∧
      (∀ n, (∀ j : Nat, j ≤ k → n ≠ logName f ((j : Nat) : Int)) → fs2 n = fs n) := by
  induction k with
  | zero =>
    intro fs _
    exact ⟨fs, rfl, fun _ => rfl, fun h => absurd h (by decide), fun j h1 h2 => by omega,
      fun n _ => rfl⟩
  | succ k ih =>
    intro fs hfree
    have hsrc : (((k + 1 : Nat) : Int) - 1) = ((k : Nat) : Int) := by omega
    have hne : logName f ((k : Nat) : Int) ≠ logName f ((k + 1 : Nat) : Int) := by
      intro h
      have := logName_injective f k (k + 1) h
      omega
    cases hk : fs (logName f ((k : Nat) : Int)) with
    | none =>
      have hloop : rotateLoop f (k + 1) fs = rotateLoop f k fs := by
        simp [rotateLoop, hsrc, FS.exists, hk]
      obtain ⟨fs2, hrun, hz, h0, hshift, hother⟩ := ih fs hk
      refine ⟨fs2, by rw [hloop, hrun], fun h => by omega, ?_, ?_, ?_⟩
      · intro _
        by_cases hk0 : k = 0
        · subst hk0
          rw [hz rfl]
          exact hk
        · exact h0 (by omega)
      · intro j hj1 hj2
        by_cases hj : j = k + 1
        · subst hj
          rw [hother _ (fun j2 hj2 h => by
            have := logName_injective f _ _ h
            omega)]
          rw [hfree]
          simpa using hk.symm
        · exact hshift j hj1 (by omega)
      · intro n hn
        exact hother n (fun j hj => hn j (by omega))
    | some c =>
      let fs1 : FS := fun n => if n = logName f ((k + 1 : Nat) : Int) then some c
          else if n = logName f ((k : Nat) : Int) then none else fs n
      have hfree1 : fs1 (logName f ((k : Nat) : Int)) = none := by
        show (if _ then _ else _) = none
        rw [if_neg hne, if_pos rfl]
      obtain ⟨fs2, hrun, hz, h0, hshift, hother⟩ := ih fs1 hfree1
      have hloop : rotateLoop f (k + 1) fs = Except.ok fs2 := by
        rw [← hrun]
        simp only [rotateLoop, hsrc, FS.exists, FS.rename, hk, Option.isSome_some, if_true]
        rfl
      refine ⟨fs2, hloop, fun h => by omega, ?_, ?_, ?_⟩
      · intro _
        by_cases hk0 : k = 0
        · subst hk0
          rw [hz rfl]
          exact hfree1
        · exact h0 (by omega)
      · intro j hj1 hj2
        by_cases hj : j = k + 1
        · subst hj
          rw [hother _ (fun j2 hj2 h => by
            have := logName_injective f _ _ h
            omega)]
          show (if _ then _ else _) = _
          rw [if_pos rfl]
          exact hk.symm
        · rw [hshift j hj1 (by omega)]
          have n1 : logName f ((j - 1 : Nat) : Int) ≠ logName f ((k + 1 : Nat) : Int) := by
            intro h
            have := logName_injective f _ _ h
            omega
          have n2 : logName f ((j - 1 : Nat) : Int) ≠ logName f ((k : Nat) : Int) := by
            intro h
            have := logName_injective f _ _ h
            omega
          show (if _ then _ else _) = _
          rw [if_neg n1, if_neg n2]
      · intro n hn
        rw [hother n (fun j hj => hn j (by omega))]
        have n1 : n ≠ logName f ((k + 1 : Nat) : Int) := hn (k + 1) (by omega)
        have n2 : n ≠ logName f ((k : Nat) : Int) := hn k (by omega)
        show (if _ then _ else _) = _
        rw [if_neg n1, if_neg n2]

end Log

namespace Log

/-- The file system the rotation leaves, name by name: `file.0` holds what the log file
held, the log file is gone, and every other name holds what the loop left there. -/
theorem rotate_apply (f : String) (h : Int) (fs : FS) (k : Nat) (hk : h - 1 = (k : Int))
    (fs2 : FS) (hrun : rotateLoop f k (fs.remove (logName f ((k : Nat) : Int))) = Except.ok fs2)
    (hf2 : fs2 f = fs f) (h02 : fs2 (logName f ((0 : Nat) : Int)) = none) (n : String) :
    rotate f h fs n =
      if n = logName f ((0 : Nat) : Int) then fs f else if n = f then none else fs2 n := by
  cases hf : fs f with
  | none =>
    have hr : rotate f h fs = fs2 := by
      simp only [rotate, hk, Int.toNat_ofNat, hrun, bind, Except.bind, FS.exists, hf2, hf]
      rfl
    rw [hr]
    by_cases h1 : n = logName f ((0 : Nat) : Int)
    · rw [if_pos h1, h1, h02]
    · by_cases h2 : n = f
      · rw [if_neg h1, if_pos h2, h2, hf2, hf]
      · rw [if_neg h1, if_neg h2]
  | some c =>
    have hr : rotate f h fs = fun n => if n = logName f ((0 : Nat) : Int) then some c
        else if n = f then none else fs2 n := by
      simp only [rotate, hk, Int.toNat_ofNat, hrun, bind, Except.bind, FS.exists, FS.rename,
        hf2, hf]
      rfl
    rw [hr]

/-- C9. For a history count of at least 1 the rotation is a shift by one: afterwards the
log file does not exist, `file.0` holds exactly what the log file held, each `file.i`
with `1 ≤ i ≤ history-1` holds exactly what `file.(i-1)` held, the files `file.j` with
`j ≥ history` and every unrelated name are as before, and every content that was there
under a name other than `file.(history-1)` is still there under some name. -/
theorem rotate_shifts_by_one (f : String) (m : LogLevel) (h : Int) (fs : FS) (hh : 1 ≤ h) :
    (FileReactor.construct f m h fs).2 f = none ∧
    (FileReactor.construct f m h fs).2 (logName f 0) = fs f ∧
    (∀ i : Int, 1 ≤ i → i ≤ h - 1 →
      (FileReactor.construct f m h fs).2 (logName f i) = fs (logName f (i - 1))) ∧
    (∀ j : Int, h ≤ j → (FileReactor.construct f m h fs).2 (logName f j) = fs (logName f j)) ∧
    (∀ n : String, n ≠ f → (∀ i : Int, 0 ≤ i → i ≤ h - 1 → n ≠ logName f i) →
      (FileReactor.construct f m h fs).2 n = fs n) ∧
    (∀ (n : String) (c : String), fs n = some c → n ≠ logName f (h - 1) →
      ∃ n2, (FileReactor.construct f m h fs).2 n2 = some c) := by
  have hctor : (FileReactor.construct f m h fs).2 = rotate f h fs := rfl
  rw [hctor]
  obtain ⟨k, hk⟩ : ∃ k : Nat, h - 1 = (k : Int) := ⟨(h - 1).toNat, by omega⟩
  have hfree : (fs.remove (logName f ((k : Nat) : Int))) (logName f ((k : Nat) : Int)) = none := by
    simp [FS.remove]
  obtain ⟨fs2, hrun, hz, h0, hshift, hother⟩ := rotateLoop_spec f k _ hfree
  have hrem : ∀ n, n ≠ logName f ((k : Nat) : Int) →
      (fs.remove (logName f ((k : Nat) : Int))) n = fs n := by
    intro n hn
    simp [FS.remove, hn]
  have hf2 : fs2 f = fs f := by
    rw [hother f (fun j _ e => logName_ne_self f _ e.symm)]
    exact hrem f (fun e => logName_ne_self f _ e.symm)
  have h02 : fs2 (logName f ((0 : Nat) : Int)) = none := by
    by_cases hk0 : k = 0
    · subst hk0
      rw [hz rfl]
      exact hfree
    · exact h0 (by omega)
  have hrot := rotate_apply f h fs k hk fs2 hrun hf2 h02
  have hself : f ≠ logName f ((0 : Nat) : Int) := fun e => logName_ne_self f _ e.symm
  -- the shifted files, with natural indices
  have hshiftN : ∀ j : Nat, 1 ≤ j → j ≤ k →
      rotate f h fs (logName f ((j : Nat) : Int)) = fs (logName f ((j - 1 : Nat) : Int)) := by
    intro j hj1 hj2
    have e0 : logName f ((j : Nat) : Int) ≠ logName f ((0 : Nat) : Int) := by
      intro e
      have := logName_injective f _ _ e
      omega
    rw [hrot, if_neg e0, if_neg (logName_ne_self f _), hshift j hj1 hj2]
    apply hrem
    intro e
    have := logName_injective f _ _ e
    omega
  -- the names the rotation does not touch
  have huntouched : ∀ n : String, n ≠ f → (∀ j : Nat, j ≤ k → n ≠ logName f ((j : Nat) : Int)) →
      rotate f h fs n = fs n := by
    intro n hnf hn
    rw [hrot, if_neg (hn 0 (by omega)), if_neg hnf, hother n hn]
    exact hrem n (hn k (by omega))
  refine ⟨?_, ?_, ?_, ?_, ?_, ?_⟩
  · rw [hrot, if_neg hself, if_pos rfl]
  · have e : logName f 0 = logName f ((0 : Nat) : Int) := rfl
    rw [e, hrot, if_pos rfl]
  · intro i hi1 hi2
    obtain ⟨j, rfl⟩ : ∃ j : Nat, i = (j : Int) := ⟨i.toNat, by omega⟩
    have e : ((j : Nat) : Int) - 1 = ((j - 1 : Nat) : Int) := by omega
    rw [e]
    exact hshiftN j (by omega) (by omega)
  · intro j hj
    obtain ⟨m, rfl⟩ : ∃ m : Nat, j = (m : Int) := ⟨j.toNat, by omega⟩
    apply huntouched _ (logName_ne_self f _)
    intro j2 hj2 e
    have := logName_injective f _ _ e
    omega
  · intro n hnf hn
    apply huntouched n hnf
    intro j hj
    exact hn (j : Int) (by omega) (by omega)
  · intro n c hc hn
    by_cases hnf : n = f
    · refine ⟨logName f ((0 : Nat) : Int), ?_⟩
      rw [hrot, if_pos rfl, ← hnf, hc]
    · by_cases hex : ∃ j : Nat, j ≤ k ∧ n = logName f ((j : Nat) : Int)
      · obtain ⟨j, hj, rfl⟩ := hex
        have hjk : j ≠ k := by
          rintro rfl
          exact hn (by rw [hk])
        refine ⟨logName f ((j + 1 : Nat) : Int), ?_⟩
        rw [hshiftN (j + 1) (by omega) (by omega)]
        exact hc
      · refine ⟨n, ?_⟩
        rw [huntouched n hnf (fun j hj e => hex ⟨j, hj, e⟩)]
        exact hc

/-- C9, at the sample file system and a history of 3: `a.log` moves to `a.log.0`,
`a.log.0` moves to `a.log.1`, the old `a.log.2` is discarded and, `a.log.1` not having
existed, not replaced. -/
theorem rotate_shifts_by_one_witness :
    (1 : Int) ≤ 3 ∧
    (FileReactor.construct "a.log" LogLevel.LL_STATUS 3 sampleFS).2 "a.log" = none ∧
    (FileReactor.construct "a.log" LogLevel.LL_STATUS 3 sampleFS).2 (logName "a.log" 0) = some "today" ∧
    (FileReactor.construct "a.log" LogLevel.LL_STATUS 3 sampleFS).2 (logName "a.log" 1) = some "yesterday" ∧
    (FileReactor.construct "a.log" LogLevel.LL_STATUS 3 sampleFS).2 (logName "a.log" 2) = none :=
  have w := rotate_shifts_by_one "a.log" LogLevel.LL_STATUS 3 sampleFS (by decide)
  ⟨by decide, w.1, w.2.1, w.2.2.1 1 (by decide) (by decide),
    w.2.2.1 2 (by decide) (by decide)⟩

end Log

namespace GraphDataModels

/-- C10. For `EdgeLabel`, `VertexLabel`, `IndexOnly` and `PropertyKey`: serializing a
value `v` into an empty JSON object succeeds, and deserializing the result into any
object `t` of the same type succeeds and leaves `t` with every field equal to that of
`v`. -/
theorem Deserialize_Serialize_flat :
    (∀ v t : EdgeLabel, ∃ json, v.Serialize (Json.object []) = some json ∧
      ∃ t2, t.Deserialize json = some t2 ∧
        t2.m_Multiplicity = v.m_Multiplicity ∧ t2.m_Name = v.m_Name) ∧
    (∀ v t : VertexLabel, ∃ json, v.Serialize (Json.object []) = some json ∧
      ∃ t2, t.Deserialize json = some t2 ∧ t2.m_Name = v.m_Name) ∧
    (∀ v t : IndexOnly, ∃ json, v.Serialize (Json.object []) = some json ∧
      ∃ t2, t.Deserialize json = some t2 ∧ t2.m_Name = v.m_Name) ∧
    (∀ v t : PropertyKey, ∃ json, v.Serialize (Json.object []) = some json ∧
      ∃ t2, t.Deserialize json = some t2 ∧
        t2.m_Cardinality = v.m_Cardinality ∧ t2.m_DataType = v.m_DataType ∧
        t2.m_Name = v.m_Name) := by
  refine ⟨?_, ?_, ?_, ?_⟩
  · intro v t
    simp [EdgeLabel.Serialize, EdgeLabel.Deserialize, Json.setMember, Json.getMember,
      Json.asString, setEntry, getEntry]
  · intro v t
    simp [VertexLabel.Serialize, VertexLabel.Deserialize, Json.setMember, Json.getMember,
      Json.asString, setEntry, getEntry]
  · intro v t
    simp [IndexOnly.Serialize, IndexOnly.Deserialize, Json.setMember, Json.getMember,
      Json.asString, setEntry, getEntry]
  · intro v t
    simp [PropertyKey.Serialize, PropertyKey.Deserialize, Json.setMember, Json.getMember,
      Json.asString, setEntry, getEntry]

end GraphDataModels

namespace Utils

/-- C11. Whatever the handle and the stored name, `Unload` leaves the object equal to a
default-constructed `Library`; it closes the handle exactly once when it was not null and
closes nothing when it was null; and a second `Unload` changes no field and closes
nothing.  The destructor is the same call. -/
theorem Unload_resets_and_is_idempotent (self : Library) (closed : List Nat) :
    (Library.Unload self closed).1 = Library.default ∧
    (∀ handle : Nat, self.m_pLibrary = some handle →
      (Library.Unload self closed).2 = closed ++ [handle]) ∧
    (self.m_pLibrary = none → (Library.Unload self closed).2 = closed) ∧
    Library.Unload (Library.Unload self closed).1 (Library.Unload self closed).2 =
      Library.Unload self closed ∧
    Library.destroy self closed = Library.Unload self closed := by
  cases h : self.m_pLibrary with
  | none => simp [Library.Unload, Library.default, Library.destroy, h]
  | some handle => simp [Library.Unload, Library.default, Library.destroy, h]

/-- C11, at a loaded and at a never loaded library: unloading `foo`, held at address 4096,
closes 4096 once after the handle 7 closed before; unloading the default-constructed
object closes nothing. -/
theorem Unload_resets_and_is_idempotent_witness :
    (Library.Load sampleLoader Library.default "foo").m_pLibrary = some 4096 ∧
    (Library.Unload (Library.Load sampleLoader Library.default "foo") [7]).2 = [7] ++ [4096] ∧
    Library.default.m_pLibrary = none ∧
    (Library.Unload Library.default [7]).2 = [7] :=
  ⟨by decide,
    (Unload_resets_and_is_idempotent (Library.Load sampleLoader Library.default "foo") [7]).2.1
      4096 (by decide),
    rfl,
    (Unload_resets_and_is_idempotent Library.default [7]).2.2.1 rfl⟩

end Utils
